import Mathlib

/-!
Verification of the PyXenaManager control-plane client (src/xenamanager/xena_app.py).

The repository models a hardware test setup as a tree session - chassis - module - port
and translates high level operations (reserve, release, inventory, traffic control,
statistics clearing) into textual protocol commands.  This development gives a shallow
embedding of that code: the tree is a family of Lean structures, hardware responses are
oracle functions passed in explicitly, and each operation is a pure function producing
the trace of protocol events it emits together with an explicit success or error result.

Primitives that live outside the single source file of the repository (the XenaObject
tree base class, the XenaPort command wrappers and its wait_for_states poller) are
modelled from the specification; such definitions carry a doc comment starting with
the words Modelled from the spec.
-/

namespace PyXena

/-- Protocol level events a run can emit.  `cmd` is a chassis level command sent over
the chassis transport; `poll` records one wait_for_states call against a port
attribute; the remaining constructors are the per-port command wrappers of XenaPort
(reserve, reset, release, clear stats). -/
inductive Ev where
  | cmd (chassis : String) (c : String) (args : List String)
  | poll (port : String) (attr : String) (timeout : Nat) (expected : List String)
  | reserve (port : String) (force : Bool)
  | reset (port : String)
  | release (port : String)
  | clearStats (port : String)
  deriving DecidableEq, Repr

/-- Errors a run can raise.  `timeout` and `reservationConflict` and `notFound` are the
spec taxonomy; `keyError` and `valueError` and `indexError` model raw Python exceptions
escaping from dictionary lookups, int parsing and empty-list indexing. -/
inductive XenaError where
  | timeout
  | reservationConflict
  | notFound
  | keyError
  | valueError
  | indexError
  deriving DecidableEq, Repr

instance exceptDecEq {ε α : Type} [DecidableEq ε] [DecidableEq α] :
    DecidableEq (Except ε α) := fun a b =>
  match a, b with
  | .error e, .error e' =>
    if h : e = e' then .isTrue (h ▸ rfl)
    else .isFalse (fun hc => h (by cases hc; rfl))
  | .error _, .ok _ => .isFalse (fun hc => Except.noConfusion hc)
  | .ok _, .error _ => .isFalse (fun hc => Except.noConfusion hc)
  | .ok x, .ok y =>
    if h : x = y then .isTrue (h ▸ rfl)
    else .isFalse (fun hc => h (by cases hc; rfl))

/-- A port node.  `chassis` is the owning chassis IP, `ref` the port index string
of the form module/port (the XenaPort index as constructed in xena_app.py). -/
structure XenaPort where
  chassis : String
  ref : String
  deriving DecidableEq, Repr

/-- Modelled from the spec: a node's name is derived from its owning chassis name
(the IP) plus its index, giving the ip/module/port form used in addressing. -/
def XenaPort.name (p : XenaPort) : String :=
  p.chassis ++ "/" ++ p.ref

/-- A module node: its index under the chassis and the port index strings of its
port children, in creation order. -/
structure XenaModule where
  ref : Nat
  portRefs : List String
  deriving DecidableEq, Repr

/-- A child of a chassis node: either a module (created by inventory) or a port
created directly under the chassis (created by XenaChassis.reserve_ports). -/
inductive ChassisChild where
  | module (m : XenaModule)
  | port (ref : String)
  deriving DecidableEq, Repr

/-- A chassis node: its IP address (which is also its name) and its ordered
children. -/
structure XenaChassis where
  ip : String
  children : List ChassisChild
  deriving DecidableEq, Repr

/-- The session root: the owner identity and the chassis children in creation
order. -/
structure XenaSession where
  owner : String
  chassis : List XenaChassis
  deriving DecidableEq, Repr

/-- Modelled from the spec: get_objects_by_type of kind port on a chassis returns all
descendant port nodes in tree order (pre-order over the children list). -/
def XenaChassis.portRefList (c : XenaChassis) : List String :=
  (c.children.map fun ch =>
    match ch with
    | .module m => m.portRefs
    | .port r => [r]).flatten

/-- The port nodes of a chassis, as structured values. -/
def XenaChassis.portNodes (c : XenaChassis) : List XenaPort :=
  c.portRefList.map fun r => { chassis := c.ip, ref := r }

/-- Insert a binding into a Python style dictionary: an existing key keeps its
position and gets the new value, a new key is appended. -/
def dictInsert (d : List (String × α)) (k : String) (v : α) : List (String × α) :=
  if d.any (fun kv => kv.1 == k) then
    d.map fun kv => if kv.1 == k then (k, v) else kv
  else
    d ++ [(k, v)]

/-- Build a Python style dictionary from a list of bindings (later bindings
overwrite earlier ones, keys keep first-seen order). -/
def buildDict (l : List (String × α)) : List (String × α) :=
  l.foldl (fun d kv => dictInsert d kv.1 kv.2) []

/-- Dictionary lookup: the last binding for the key wins (as after Python dict
construction from a binding sequence). -/
def dictLookup (l : List (String × α)) (k : String) : Option α :=
  (l.reverse.find? (fun kv => kv.1 == k)).map (fun kv => kv.2)

/-- The ports property of a chassis: the Python dict mapping str(p) (the port name)
to the port object, over all descendant ports. -/
def XenaChassis.ports (c : XenaChassis) : List (String × XenaPort) :=
  buildDict (c.portNodes.map fun p => (p.name, p))

/-- The chassis_list property of the session: dict name (the IP) to chassis. -/
def XenaSession.chassis_list (s : XenaSession) : List (String × XenaChassis) :=
  buildDict (s.chassis.map fun c => (c.ip, c))

/-- The ports property of the session: the union of the per-chassis port dicts,
in chassis_list order (Python dict.update semantics). -/
def XenaSession.portsDict (s : XenaSession) : List (String × XenaPort) :=
  (s.chassis_list.map fun kv => kv.2.ports).flatten.foldl
    (fun d kv => dictInsert d kv.1 kv.2) []

/-- The IP addresses of the session's chassis, in creation order. -/
def XenaSession.ips (s : XenaSession) : List String :=
  s.chassis.map fun c => c.ip

/-- XenaSession.add_chassis: a no-op when a chassis with this address already
exists, otherwise a fresh chassis is created and logon (c_logon with the quoted
password, then c_owner with the quoted session owner) is performed on it. -/
def XenaSession.add_chassis (s : XenaSession) (ip : String) (password : String) :
    XenaSession × List Ev :=
  if s.chassis_list.any (fun kv => kv.1 == ip) then
    (s, [])
  else
    ({ s with chassis := s.chassis ++ [{ ip := ip, children := [] }] },
     [Ev.cmd ip "c_logon" ["\"" ++ password ++ "\""],
      Ev.cmd ip "c_owner" ["\"" ++ s.owner ++ "\""]])

/-- Python str.split with a one-character separator: cut the character list at
every separator, keeping empty pieces. -/
def splitChar (sep : Char) : List Char → List (List Char)
  | [] => [[]]
  | c :: rest =>
    match splitChar sep rest with
    | [] => [[]]
    | g :: gs => if c = sep then [] :: g :: gs else (c :: g) :: gs

/-- Python s.split(sep) for a one-character separator string. -/
def strSplit (sep : Char) (s : String) : List String :=
  (splitChar sep s.data).map fun l => String.mk l

/-- Python str.replace for a one-character pattern and replacement. -/
def replaceChar (a b : Char) (s : String) : String :=
  String.mk (s.data.map fun c => if c = a then b else c)

/-- Python str.split() with no argument: split at whitespace characters. -/
def wsSplit : List Char → List (List Char)
  | [] => [[]]
  | c :: rest =>
    match wsSplit rest with
    | [] => [[]]
    | g :: gs => if c.isWhitespace then [] :: g :: gs else (c :: g) :: gs

/-- Python str.split() with no argument: whitespace runs separate tokens and
empty tokens are dropped. -/
def pySplit (s : String) : List String :=
  ((wsSplit s.data).filter fun l => l ≠ []).map fun l => String.mk l

/-- Parse a nonempty run of decimal digits. -/
def parseNatGo (acc : Nat) : List Char → Option Nat
  | [] => some acc
  | c :: rest => if c.isDigit then parseNatGo (acc * 10 + (c.toNat - 48)) rest else none

/-- Parse a nonempty all-digit character list. -/
def parseNat : List Char → Option Nat
  | [] => none
  | l => parseNatGo 0 l

/-- Python int(s): strip surrounding whitespace, allow an optional sign, then
decimal digits; none models the ValueError raise. -/
def pyInt (s : String) : Option Int :=
  match ((s.data.dropWhile Char.isWhitespace).reverse.dropWhile
      Char.isWhitespace).reverse with
  | '-' :: rest => (parseNat rest).map fun n => -(n : Int)
  | '+' :: rest => (parseNat rest).map fun n => (n : Int)
  | l => (parseNat l).map fun n => (n : Int)

/-- Substring containment over character lists (Python pat in s). -/
def containsSubList (pat : List Char) : List Char → Bool
  | [] => pat.isEmpty
  | c :: rest => pat.isPrefixOf (c :: rest) || containsSubList pat rest

/-- Python substring containment test (pat in s). -/
def containsSub (s pat : String) : Bool :=
  containsSubList pat.data s.data

/-- Modelled from the spec: the State Poller repeatedly queries an attribute until its
value is one of the expected values or the timeout elapses.  `obs t` is the value
observed at the t-th query of this wait call; the result is the index of the first
matching observation. -/
def pollFirst (obs : Nat → String) (expected : List String) (timeout : Nat) : Option Nat :=
  (List.range timeout).find? (fun t => expected.contains (obs t))

/-- Modelled from the spec: XenaPort.wait_for_states fails with Timeout when no
expected value is observed within the timeout budget. -/
def wait_for_states (obs : Nat → String) (timeout : Nat) (expected : List String) :
    Except XenaError Nat :=
  match pollFirst obs expected timeout with
  | some t => .ok t
  | none => .error .timeout

/-- Run wait_for_states over a list of ports in order, recording one poll event per
call and aborting at the first Timeout (as the Python for-loop does when the
exception propagates). -/
def pollPorts (obs : String → Nat → String) (attr : String) (timeout : Nat)
    (expected : List String) : List XenaPort → List Ev × Except XenaError Unit
  | [] => ([], .ok ())
  | p :: rest =>
    let ev := Ev.poll p.name attr timeout expected
    match wait_for_states (obs p.name) timeout expected with
    | .error e => ([ev], .error e)
    | .ok _ =>
      match pollPorts obs attr timeout expected rest with
      | (tr, r) => (ev :: tr, r)

/-- XenaChassis._get_operation_ports: the given ports, or all chassis ports when the
argument list is empty. -/
def XenaChassis._get_operation_ports (c : XenaChassis) (ports : List XenaPort) :
    List XenaPort :=
  if ports.isEmpty then c.ports.map (fun kv => kv.2) else ports

/-- XenaChassis._traffic_command: one combined c_traffic command whose argument joins
every port reference with slashes replaced by spaces, then a wait_for_states poll per
port for the commanded value with timeout 40. -/
def XenaChassis._traffic_command (c : XenaChassis) (obs : String → Nat → String)
    (command : String) (ports : List XenaPort) : List Ev × Except XenaError Unit :=
  let ps := c._get_operation_ports ports
  let portsStr := String.intercalate " " (ps.map fun p => replaceChar '/' ' ' p.ref)
  match pollPorts obs "p_traffic" 40 [command] ps with
  | (tr, r) => (Ev.cmd c.ip "c_traffic" [command, portsStr] :: tr, r)

/-- XenaChassis.wait_traffic: poll every given port for p_traffic off with timeout
int(2.628e+6) = 2628000. -/
def XenaChassis.wait_traffic (obs : String → Nat → String) (ports : List XenaPort) :
    List Ev × Except XenaError Unit :=
  pollPorts obs "p_traffic" 2628000 ["off"] ports

/-- XenaChassis.start_traffic: issue the on command (with its confirmation polls),
then when blocking wait for traffic to end on the given ports. -/
def XenaChassis.start_traffic (c : XenaChassis) (obs : String → Nat → String)
    (blocking : Bool) (ports : List XenaPort) : List Ev × Except XenaError Unit :=
  match c._traffic_command obs "on" ports with
  | (tr, .error e) => (tr, .error e)
  | (tr, .ok _) =>
    if blocking then
      match XenaChassis.wait_traffic obs ports with
      | (tr2, r) => (tr ++ tr2, r)
    else (tr, .ok ())

/-- XenaChassis.stop_traffic: issue the off command (with its confirmation polls). -/
def XenaChassis.stop_traffic (c : XenaChassis) (obs : String → Nat → String)
    (ports : List XenaPort) : List Ev × Except XenaError Unit :=
  c._traffic_command obs "off" ports

/-- XenaChassis.clear_stats: one per-port stat clear command, no wait. -/
def XenaChassis.clear_stats (ports : List XenaPort) : List Ev :=
  ports.map fun p => Ev.clearStats p.name

/-- XenaChassis.release_ports: release every port in the chassis port dict. -/
def XenaChassis.release_ports (c : XenaChassis) : List Ev :=
  (c.ports.map fun kv => kv.2).map fun p => Ev.release p.name

/-- The XenaChassis.reserve_ports loop: for each location a fresh port node is
attached to the chassis, then reserve and reset are issued; a reservation conflict
(port held by another owner, no force) aborts the loop after the failed reserve. -/
def chassisReserveGo (ip : String) (resvOther : String → Bool) (force : Bool) :
    List String → List ChassisChild → List Ev →
    List ChassisChild × List Ev × Except XenaError Unit
  | [], ch, tr => (ch, tr, .ok ())
  | loc :: rest, ch, tr =>
    let ch' := ch ++ [ChassisChild.port loc]
    let nm := ip ++ "/" ++ loc
    if resvOther nm && !force then
      (ch', tr ++ [Ev.reserve nm force], .error .reservationConflict)
    else
      chassisReserveGo ip resvOther force rest ch' (tr ++ [Ev.reserve nm force, Ev.reset nm])

/-- XenaChassis.reserve_ports: reserve and reset each location, returning the port
dict of the resulting chassis on success.  `resvOther nm` tells whether the hardware
reports the port named nm as reserved by another owner. -/
def XenaChassis.reserve_ports (c : XenaChassis) (resvOther : String → Bool)
    (locations : List String) (force : Bool) :
    XenaChassis × List Ev × Except XenaError (List (String × XenaPort)) :=
  match chassisReserveGo c.ip resvOther force locations c.children [] with
  | (ch, tr, r) =>
    let c' := { c with children := ch }
    (c', tr, r.map fun _ => c'.ports)

/-- The chassis grouping key of a port in XenaSession._per_chassis_ports: the first
slash-separated component of the port name. -/
def portChassisKey (p : XenaPort) : String :=
  (strSplit '/' (XenaPort.name p)).headD ""

/-- Modelled from the spec: get_object_by_name resolves a name to the unique node
carrying it, failing with NotFound when absent.  Chassis are named by their IP and
only a chassis can match a slash-free grouping key. -/
def XenaSession.findByName (s : XenaSession) (nm : String) : Option XenaChassis :=
  s.chassis.find? (fun c => c.ip == nm)

/-- Append a port to its chassis group, creating the group at the end on first
sight (Python dict insertion order; keys occur at most once). -/
def addToGroups : List (XenaChassis × List XenaPort) → XenaChassis → XenaPort →
    List (XenaChassis × List XenaPort)
  | [], c, p => [(c, [p])]
  | e :: rest, c, p =>
    if e.1 = c then (e.1, e.2 ++ [p]) :: rest else e :: addToGroups rest c p

/-- The XenaSession._per_chassis_ports loop body. -/
def perChassisGo (s : XenaSession) :
    List XenaPort → List (XenaChassis × List XenaPort) →
    Except XenaError (List (XenaChassis × List XenaPort))
  | [], g => .ok g
  | p :: rest, g =>
    match s.findByName (portChassisKey p) with
    | none => .error .notFound
    | some c => perChassisGo s rest (addToGroups g c p)

/-- XenaSession._per_chassis_ports: group ports by their owning chassis, resolved by
name lookup of the first component of the port name. -/
def XenaSession._per_chassis_ports (s : XenaSession) (ports : List XenaPort) :
    Except XenaError (List (XenaChassis × List XenaPort)) :=
  perChassisGo s ports []

/-- XenaSession._get_operation_ports: the given ports, or all session ports when the
argument list is empty. -/
def XenaSession._get_operation_ports (s : XenaSession) (ports : List XenaPort) :
    List XenaPort :=
  if ports.isEmpty then s.portsDict.map (fun kv => kv.2) else ports

/-- XenaSession.clear_stats: group the operation ports per chassis, then clear stats
on each group. -/
def XenaSession.clear_stats (s : XenaSession) (ports : List XenaPort) :
    Except XenaError (List Ev) :=
  (s._per_chassis_ports (s._get_operation_ports ports)).map fun groups =>
    (groups.map fun g => XenaChassis.clear_stats g.2).flatten

/-- XenaSession.release_ports: group all session ports per chassis, then call
release_ports on each such chassis (which releases the ports of its own dict). -/
def XenaSession.release_ports (s : XenaSession) : Except XenaError (List Ev) :=
  (s._per_chassis_ports (s._get_operation_ports [])).map fun groups =>
    (groups.map fun g => g.1.release_ports).flatten

/-- The first loop of XenaSession.start_traffic: non-blocking start per chassis,
aborting when a chassis raises. -/
def startGroups (obs : String → Nat → String) :
    List (XenaChassis × List XenaPort) → List Ev × Except XenaError Unit
  | [] => ([], .ok ())
  | (c, ps) :: rest =>
    match c.start_traffic obs false ps with
    | (tr, .error e) => (tr, .error e)
    | (tr, .ok _) =>
      match startGroups obs rest with
      | (tr2, r) => (tr ++ tr2, r)

/-- The second loop of XenaSession.start_traffic: wait_traffic per chassis, aborting
at the first Timeout. -/
def waitGroups (obs : String → Nat → String) :
    List (XenaChassis × List XenaPort) → List Ev × Except XenaError Unit
  | [] => ([], .ok ())
  | (_, ps) :: rest =>
    match XenaChassis.wait_traffic obs ps with
    | (tr, .error e) => (tr, .error e)
    | (tr, .ok _) =>
      match waitGroups obs rest with
      | (tr2, r) => (tr ++ tr2, r)

/-- XenaSession.start_traffic: start traffic non-blocking on every affected chassis
first; only when blocking, regroup and wait per chassis for traffic to end. -/
def XenaSession.start_traffic (s : XenaSession) (obs : String → Nat → String)
    (blocking : Bool) (ports : List XenaPort) : List Ev × Except XenaError Unit :=
  match s._per_chassis_ports (s._get_operation_ports ports) with
  | .error e => ([], .error e)
  | .ok groups =>
    match startGroups obs groups with
    | (tr, .error e) => (tr, .error e)
    | (tr, .ok _) =>
      if blocking then
        match s._per_chassis_ports (s._get_operation_ports ports) with
        | .error e => (tr, .error e)
        | .ok groups2 =>
          match waitGroups obs groups2 with
          | (tr2, r) => (tr ++ tr2, r)
      else (tr, .ok ())

/-- One iteration of the XenaSession.reserve_ports loop: split the location into
ip, module, port (a malformed location raises a bare ValueError); look the chassis
up in the chassis_list dict (a missing key raises a bare KeyError); delegate to the
chassis reserve, keeping whatever state the chassis mutated even on failure. -/
def sessionReserveStep (resv : String → Bool) (force : Bool) (s : XenaSession)
    (loc : String) : XenaSession × List Ev × Except XenaError Unit :=
  match strSplit '/' loc with
  | [ip, m, p] =>
    match dictLookup s.chassis_list ip with
    | none => (s, [], .error .keyError)
    | some c =>
      match XenaChassis.reserve_ports c resv [m ++ "/" ++ p] force with
      | (c', tr', r) =>
        ({ s with chassis := s.chassis.map fun cc => if cc.ip == ip then c' else cc },
         tr', r.map fun _ => ())
  | _ => (s, [], .error .valueError)

/-- The XenaSession.reserve_ports loop: one step per location, aborting with the
raised error; state and trace of earlier iterations persist when a later one
raises. -/
def sessionReserveGo (resv : String → Bool) (force : Bool) :
    List String → XenaSession → List Ev →
    XenaSession × List Ev × Except XenaError Unit
  | [], s, tr => (s, tr, .ok ())
  | loc :: rest, s, tr =>
    match sessionReserveStep resv force s loc with
    | (s', tr', .error e) => (s', tr ++ tr', .error e)
    | (s', tr', .ok _) => sessionReserveGo resv force rest s' (tr ++ tr')

/-- XenaSession.reserve_ports: route each ip/module/port location to its chassis,
returning the session port dict on success. -/
def XenaSession.reserve_ports (s : XenaSession) (resv : String → Bool)
    (locations : List String) (force : Bool) :
    XenaSession × List Ev × Except XenaError (List (String × XenaPort)) :=
  match sessionReserveGo resv force locations s [] with
  | (s', tr, r) => (s', tr, r.map fun _ => s'.portsDict)

/-- The module info attributes read by XenaModule.inventory. -/
structure MInfo where
  m_cfptype : String
  m_portcount : String
  m_cfpconfig : String

/-- XenaModule.inventory: the port count is m_portcount when the transceiver type
contains NOTCFP, otherwise the first whitespace token of m_cfpconfig; one port node
is created per index with the module/port index string. -/
def XenaModule.inventory (mref : Nat) (info : MInfo) : Except XenaError XenaModule :=
  let count : Except XenaError Int :=
    if containsSub info.m_cfptype "NOTCFP" then
      match pyInt info.m_portcount with
      | some n => .ok n
      | none => .error .valueError
    else
      match pySplit info.m_cfpconfig with
      | [] => .error .indexError
      | t :: _ =>
        match pyInt t with
        | some n => .ok n
        | none => .error .valueError
  count.map fun n =>
    { ref := mref,
      portRefs := (List.range n.toNat).map fun p => toString mref ++ "/" ++ toString p }

/-- The XenaChassis.inventory loop over the enumerated c_portcounts tokens: a module
is created and inventoried exactly for the positions whose count is nonzero. -/
def chassisInventoryGo (minfo : Nat → MInfo) :
    List (Nat × String) → List ChassisChild → Except XenaError (List ChassisChild)
  | [], acc => .ok acc
  | (i, tok) :: rest, acc =>
    match pyInt tok with
    | none => .error .valueError
    | some n =>
      if n ≠ 0 then
        match XenaModule.inventory i (minfo i) with
        | .error e => .error e
        | .ok m => chassisInventoryGo minfo rest (acc ++ [ChassisChild.module m])
      else chassisInventoryGo minfo rest acc

/-- XenaChassis.inventory: read the per-module port-count vector from c_portcounts
and build a module child (recursively inventoried via the minfo oracle) for every
nonzero position. -/
def XenaChassis.inventory (c : XenaChassis) (c_portcounts : String)
    (minfo : Nat → MInfo) : Except XenaError XenaChassis :=
  (chassisInventoryGo minfo (pySplit c_portcounts).enum c.children).map
    fun ch => { c with children := ch }

/-! ### Dictionary lemmas -/

theorem dictInsert_of_not_mem {α : Type} (d : List (String × α)) (k : String) (v : α)
    (h : k ∉ d.map Prod.fst) : dictInsert d k v = d ++ [(k, v)] := by
  unfold dictInsert
  rw [if_neg]
  simp only [List.any_eq_true, beq_iff_eq, not_exists, not_and]
  intro kv hkv hke
  exact h (List.mem_map.mpr ⟨kv, hkv, hke⟩)

theorem dictInsert_keys_of_mem {α : Type} (d : List (String × α)) (k : String) (v : α)
    (h : k ∈ d.map Prod.fst) : (dictInsert d k v).map Prod.fst = d.map Prod.fst := by
  unfold dictInsert
  rw [if_pos]
  · rw [List.map_map]
    refine List.map_congr_left ?_
    intro kv _
    by_cases hk : kv.1 = k
    · simp [hk]
    · simp [hk]
  · obtain ⟨kv, hkv, hke⟩ := List.mem_map.mp h
    exact List.any_eq_true.mpr ⟨kv, hkv, beq_iff_eq.mpr hke⟩

theorem mem_dictInsert_keys {α : Type} (d : List (String × α)) (k : String) (v : α)
    (a : String) : a ∈ (dictInsert d k v).map Prod.fst ↔ a ∈ d.map Prod.fst ∨ a = k := by
  by_cases h : k ∈ d.map Prod.fst
  · rw [dictInsert_keys_of_mem d k v h]
    constructor
    · exact Or.inl
    · rintro (ha | rfl)
      · exact ha
      · exact h
  · rw [dictInsert_of_not_mem d k v h]
    simp

theorem dictInsert_keys_nodup {α : Type} (d : List (String × α)) (k : String) (v : α)
    (h : (d.map Prod.fst).Nodup) : ((dictInsert d k v).map Prod.fst).Nodup := by
  by_cases hk : k ∈ d.map Prod.fst
  · rw [dictInsert_keys_of_mem d k v hk]; exact h
  · rw [dictInsert_of_not_mem d k v hk]
    simp only [List.map_append, List.map_cons, List.map_nil]
    exact List.Nodup.append h (List.nodup_singleton k) (by simpa using hk)

theorem mem_dictInsert {α : Type} (d : List (String × α)) (k : String) (v : α)
    (kv' : String × α) (h : kv' ∈ dictInsert d k v) : kv' ∈ d ∨ kv' = (k, v) := by
  unfold dictInsert at h
  by_cases hc : d.any (fun kv => kv.1 == k)
  · rw [if_pos hc] at h
    obtain ⟨kv, hkv, he⟩ := List.mem_map.mp h
    by_cases hk : kv.1 = k
    · right; rw [← he]; simp [hk]
    · left; rw [← he]; simpa [hk] using hkv
  · rw [if_neg hc] at h
    rcases List.mem_append.mp h with h1 | h1
    · exact Or.inl h1
    · exact Or.inr (List.mem_singleton.mp h1)

theorem foldlDict_mem {α : Type} (l : List (String × α)) :
    ∀ (acc : List (String × α)) (kv' : String × α),
      kv' ∈ l.foldl (fun d kv => dictInsert d kv.1 kv.2) acc → kv' ∈ acc ∨ kv' ∈ l := by
  induction l with
  | nil => intro acc kv' h; exact Or.inl h
  | cons kv rest ih =>
    intro acc kv' h
    rcases ih (dictInsert acc kv.1 kv.2) kv' h with h1 | h1
    · rcases mem_dictInsert acc kv.1 kv.2 kv' h1 with h2 | h2
      · exact Or.inl h2
      · right; rw [h2]; exact List.mem_cons_self _ _
    · exact Or.inr (List.mem_cons_of_mem _ h1)

theorem foldlDict_keys_nodup {α : Type} (l : List (String × α)) :
    ∀ acc : List (String × α), (acc.map Prod.fst).Nodup →
      ((l.foldl (fun d kv => dictInsert d kv.1 kv.2) acc).map Prod.fst).Nodup := by
  induction l with
  | nil => intro acc h; exact h
  | cons kv rest ih =>
    intro acc h
    exact ih _ (dictInsert_keys_nodup acc kv.1 kv.2 h)

theorem mem_foldlDict_keys {α : Type} (l : List (String × α)) :
    ∀ (acc : List (String × α)) (a : String),
      a ∈ (l.foldl (fun d kv => dictInsert d kv.1 kv.2) acc).map Prod.fst ↔
        a ∈ acc.map Prod.fst ∨ a ∈ l.map Prod.fst := by
  induction l with
  | nil => intro acc a; simp
  | cons kv rest ih =>
    intro acc a
    rw [List.foldl_cons, ih, mem_dictInsert_keys]
    simp only [List.map_cons, List.mem_cons]
    tauto

theorem foldlDict_of_nodup {α : Type} (l : List (String × α)) :
    ∀ acc : List (String × α), (((acc ++ l).map Prod.fst)).Nodup →
      l.foldl (fun d kv => dictInsert d kv.1 kv.2) acc = acc ++ l := by
  induction l with
  | nil => intro acc _; simp
  | cons kv rest ih =>
    intro acc h
    have hk : kv.1 ∉ acc.map Prod.fst := by
      intro hmem
      have := (List.nodup_append.mp (by simpa using h)).2.2
      exact this hmem (by simp)
    rw [List.foldl_cons, dictInsert_of_not_mem acc kv.1 kv.2 hk]
    have : kv = (kv.1, kv.2) := rfl
    rw [← this, ih (acc ++ [kv]) (by simpa using h)]
    simp

theorem buildDict_keys_nodup {α : Type} (l : List (String × α)) :
    ((buildDict l).map Prod.fst).Nodup :=
  foldlDict_keys_nodup l [] (by simp)

theorem mem_buildDict_keys {α : Type} (l : List (String × α)) (a : String) :
    a ∈ (buildDict l).map Prod.fst ↔ a ∈ l.map Prod.fst := by
  rw [buildDict, mem_foldlDict_keys]
  simp

theorem mem_buildDict {α : Type} (l : List (String × α)) (kv : String × α)
    (h : kv ∈ buildDict l) : kv ∈ l := by
  rcases foldlDict_mem l [] kv h with h1 | h1
  · cases h1
  · exact h1

theorem buildDict_of_nodup {α : Type} (l : List (String × α))
    (h : (l.map Prod.fst).Nodup) : buildDict l = l := by
  rw [buildDict, foldlDict_of_nodup l [] (by simpa using h)]
  simp

theorem dictLookup_eq_none_iff {α : Type} (l : List (String × α)) (k : String) :
    dictLookup l k = none ↔ k ∉ l.map Prod.fst := by
  unfold dictLookup
  simp only [Option.map_eq_none', List.find?_eq_none, beq_iff_eq]
  constructor
  · intro h hmem
    obtain ⟨kv, hkv, hke⟩ := List.mem_map.mp hmem
    exact h kv (List.mem_reverse.mpr hkv) hke
  · intro h kv hkv hke
    exact h (List.mem_map.mpr ⟨kv, List.mem_reverse.mp hkv, hke⟩)

theorem dictLookup_mem {α : Type} (l : List (String × α)) (k : String) (v : α)
    (h : dictLookup l k = some v) : (k, v) ∈ l := by
  unfold dictLookup at h
  obtain ⟨kv, hfind, hv⟩ := Option.map_eq_some'.mp h
  have hmem := List.mem_reverse.mp (List.mem_of_find?_eq_some hfind)
  have hkey : kv.1 = k := by simpa using List.find?_some hfind
  have : kv = (k, v) := by
    rw [← hkey, ← hv]
  rw [← this]
  exact hmem

/-! ### State poller lemmas -/

theorem wait_for_states_ok_iff (obs : Nat → String) (T : Nat) (exp : List String) :
    (∃ t, wait_for_states obs T exp = Except.ok t) ↔
      ∃ t, t < T ∧ exp.contains (obs t) = true := by
  unfold wait_for_states pollFirst
  cases h : (List.range T).find? (fun t => exp.contains (obs t)) with
  | none =>
    simp only [reduceCtorEq, exists_false, false_iff, not_exists, not_and]
    have := List.find?_eq_none.mp h
    intro t ht
    exact Bool.not_eq_true _ ▸ (by simpa using this t (List.mem_range.mpr ht))
  | some t =>
    simp only [Except.ok.injEq, exists_eq', true_iff]
    exact ⟨t, List.mem_range.mp (List.mem_of_find?_eq_some h), by simpa using List.find?_some h⟩

theorem wait_for_states_err (obs : Nat → String) (T : Nat) (exp : List String)
    (e : XenaError) (h : wait_for_states obs T exp = Except.error e) :
    e = XenaError.timeout := by
  unfold wait_for_states at h
  cases hf : pollFirst obs exp T with
  | none => rw [hf] at h; cases h; rfl
  | some t => rw [hf] at h; cases h

theorem pollPorts_mem (obs : String → Nat → String) (attr : String) (T : Nat)
    (exp : List String) (ports : List XenaPort) (ev : Ev)
    (h : ev ∈ (pollPorts obs attr T exp ports).1) :
    ∃ p ∈ ports, ev = Ev.poll p.name attr T exp := by
  induction ports with
  | nil => simp [pollPorts] at h
  | cons p rest ih =>
    rw [pollPorts] at h
    cases hw : wait_for_states (obs p.name) T exp with
    | error e =>
      rw [hw] at h
      simp only [List.mem_singleton] at h
      exact ⟨p, List.mem_cons_self _ _, h⟩
    | ok t =>
      rw [hw] at h
      simp only [List.mem_cons] at h
      rcases h with h | h
      · exact ⟨p, List.mem_cons_self _ _, h⟩
      · obtain ⟨q, hq, he⟩ := ih h
        exact ⟨q, List.mem_cons_of_mem _ hq, he⟩

theorem pollPorts_err (obs : String → Nat → String) (attr : String) (T : Nat)
    (exp : List String) (ports : List XenaPort) (e : XenaError)
    (h : (pollPorts obs attr T exp ports).2 = Except.error e) : e = XenaError.timeout := by
  induction ports with
  | nil => simp [pollPorts] at h
  | cons p rest ih =>
    rw [pollPorts] at h
    cases hw : wait_for_states (obs p.name) T exp with
    | error e' =>
      rw [hw] at h
      cases h
      exact wait_for_states_err _ _ _ _ hw
    | ok t =>
      rw [hw] at h
      exact ih (by simpa using h)

theorem pollPorts_ok_iff (obs : String → Nat → String) (attr : String) (T : Nat)
    (exp : List String) (ports : List XenaPort) :
    (pollPorts obs attr T exp ports).2 = Except.ok () ↔
      ∀ p ∈ ports, ∃ t, t < T ∧ exp.contains (obs p.name t) = true := by
  induction ports with
  | nil => simp [pollPorts]
  | cons p rest ih =>
    rw [pollPorts]
    cases hw : wait_for_states (obs p.name) T exp with
    | error e =>
      simp only [reduceCtorEq, false_iff, not_forall]
      refine ⟨p, List.mem_cons_self _ _, ?_⟩
      intro ⟨t, ht, hc⟩
      obtain ⟨t', ht'⟩ := (wait_for_states_ok_iff (obs p.name) T exp).mpr ⟨t, ht, hc⟩
      rw [ht'] at hw
      cases hw
    | ok t =>
      simp only []
      rw [ih]
      constructor
      · intro h q hq
        rcases List.mem_cons.mp hq with rfl | hq'
        · exact ((wait_for_states_ok_iff (obs q.name) T exp).mp ⟨t, hw⟩)
        · exact h q hq'
      · intro h q hq
        exact h q (List.mem_cons_of_mem _ hq)

theorem pollPorts_shape (obs : String → Nat → String) (attr : String) (T : Nat)
    (exp : List String) (ports : List XenaPort) :
    ∃ k, k ≤ ports.length ∧
      (pollPorts obs attr T exp ports).1 =
        (ports.take k).map (fun p => Ev.poll p.name attr T exp) ∧
      ((pollPorts obs attr T exp ports).2 = Except.ok () → k = ports.length) := by
  induction ports with
  | nil => exact ⟨0, by simp [pollPorts]⟩
  | cons p rest ih =>
    rw [pollPorts]
    cases hw : wait_for_states (obs p.name) T exp with
    | error e =>
      refine ⟨1, by simp, by simp, by simp⟩
    | ok t =>
      obtain ⟨k, hk, htr, hok⟩ := ih
      refine ⟨k + 1, by simpa using hk, ?_, ?_⟩
      · simp only [List.take_succ_cons, List.map_cons]
        rw [htr]
      · intro h
        simp only [List.length_cons]
        rw [hok (by simpa using h)]

/-! ### Tree invariants -/

theorem chassis_ports_spec (c : XenaChassis) (kv : String × XenaPort)
    (h : kv ∈ c.ports) :
    kv.2.chassis = c.ip ∧ kv.2.ref ∈ c.portRefList ∧ kv.1 = kv.2.name := by
  have hmem := mem_buildDict _ _ h
  obtain ⟨p, hp, he⟩ := List.mem_map.mp hmem
  obtain ⟨r, hr, hpe⟩ := List.mem_map.mp hp
  subst hpe
  cases he
  exact ⟨rfl, hr, rfl⟩

theorem mem_chassis_ports_keys (c : XenaChassis) (a : String) :
    a ∈ c.ports.map Prod.fst ↔ ∃ r ∈ c.portRefList, a = c.ip ++ "/" ++ r := by
  rw [XenaChassis.ports, mem_buildDict_keys]
  unfold XenaChassis.portNodes
  simp only [List.map_map, List.mem_map, Function.comp]
  constructor
  · rintro ⟨r, hr, rfl⟩
    exact ⟨r, hr, rfl⟩
  · rintro ⟨r, hr, rfl⟩
    exact ⟨r, hr, rfl⟩

theorem chassis_list_spec (s : XenaSession) (kv : String × XenaChassis)
    (h : kv ∈ s.chassis_list) : kv.2 ∈ s.chassis ∧ kv.1 = kv.2.ip := by
  have hmem := mem_buildDict _ _ h
  obtain ⟨c, hc, he⟩ := List.mem_map.mp hmem
  cases he
  exact ⟨hc, rfl⟩

theorem chassis_list_of_nodup (s : XenaSession) (h : s.ips.Nodup) :
    s.chassis_list = s.chassis.map (fun c => (c.ip, c)) := by
  apply buildDict_of_nodup
  rw [List.map_map]
  exact h

theorem portsDict_spec (s : XenaSession) (kv : String × XenaPort)
    (h : kv ∈ s.portsDict) : ∃ c ∈ s.chassis, kv ∈ c.ports := by
  rcases foldlDict_mem _ [] kv h with h1 | h1
  · cases h1
  · obtain ⟨l, hl, hkv⟩ := List.mem_flatten.mp h1
    obtain ⟨e, he, hle⟩ := List.mem_map.mp hl
    subst hle
    exact ⟨e.2, (chassis_list_spec s e he).1, hkv⟩

theorem portsDict_keys_nodup (s : XenaSession) : (s.portsDict.map Prod.fst).Nodup :=
  foldlDict_keys_nodup _ [] (by simp)

theorem mem_portsDict_keys (s : XenaSession) (a : String) :
    a ∈ s.portsDict.map Prod.fst ↔
      ∃ kv ∈ s.chassis_list, a ∈ kv.2.ports.map Prod.fst := by
  rw [XenaSession.portsDict, mem_foldlDict_keys]
  simp only [List.map_nil, List.not_mem_nil, false_or]
  constructor
  · intro h
    obtain ⟨kv', hkv', he⟩ := List.mem_map.mp h
    obtain ⟨l, hl, hkvl⟩ := List.mem_flatten.mp hkv'
    obtain ⟨e, he', hle⟩ := List.mem_map.mp hl
    subst hle
    exact ⟨e, he', he ▸ List.mem_map.mpr ⟨kv', hkvl, rfl⟩⟩
  · rintro ⟨e, he, ha⟩
    obtain ⟨kv', hkv', rfl⟩ := List.mem_map.mp ha
    exact List.mem_map.mpr ⟨kv', List.mem_flatten.mpr ⟨e.2.ports, List.mem_map.mpr ⟨e, he, rfl⟩, hkv'⟩, rfl⟩

theorem mem_portsDict_keys_of_nodup (s : XenaSession) (h : s.ips.Nodup) (a : String) :
    a ∈ s.portsDict.map Prod.fst ↔ ∃ c ∈ s.chassis, a ∈ c.ports.map Prod.fst := by
  rw [mem_portsDict_keys, chassis_list_of_nodup s h]
  constructor
  · rintro ⟨kv, hkv, ha⟩
    obtain ⟨c, hc, rfl⟩ := List.mem_map.mp hkv
    exact ⟨c, hc, ha⟩
  · rintro ⟨c, hc, ha⟩
    exact ⟨(c.ip, c), List.mem_map.mpr ⟨c, hc, rfl⟩, ha⟩

theorem find_chassis_self (l : List XenaChassis)
    (h : (l.map XenaChassis.ip).Nodup) (c : XenaChassis) (hc : c ∈ l) :
    l.find? (fun d => d.ip == c.ip) = some c := by
  induction l with
  | nil => cases hc
  | cons d rest ih =>
    rcases List.mem_cons.mp hc with rfl | hc'
    · simp [List.find?_cons_of_pos]
    · have h' : d.ip ∉ rest.map XenaChassis.ip ∧ (rest.map XenaChassis.ip).Nodup := by
        rw [List.map_cons, List.nodup_cons] at h
        exact h
      have hd : d.ip ≠ c.ip := by
        intro he
        exact h'.1 (he ▸ List.mem_map.mpr ⟨c, hc', rfl⟩)
      rw [List.find?_cons_of_neg _ (by simpa using hd)]
      exact ih h'.2 hc'

theorem findByName_self (s : XenaSession) (h : s.ips.Nodup) (c : XenaChassis)
    (hc : c ∈ s.chassis) : s.findByName c.ip = some c :=
  find_chassis_self s.chassis h c hc

theorem findByName_mem (s : XenaSession) (a : String) (c : XenaChassis)
    (h : s.findByName a = some c) : c ∈ s.chassis ∧ c.ip = a := by
  refine ⟨List.mem_of_find?_eq_some h, ?_⟩
  simpa using List.find?_some h

theorem findByName_isSome_iff (s : XenaSession) (a : String) :
    (s.findByName a).isSome ↔ a ∈ s.ips := by
  rw [XenaSession.findByName, List.find?_isSome]
  unfold XenaSession.ips
  simp

/-! ### Grouping lemmas -/

theorem addToGroups_flatten_perm (g : List (XenaChassis × List XenaPort))
    (c : XenaChassis) (p : XenaPort) :
    ((addToGroups g c p).map Prod.snd).flatten.Perm
      ((g.map Prod.snd).flatten ++ [p]) := by
  induction g with
  | nil => simp [addToGroups]
  | cons e rest ih =>
    rw [addToGroups]
    by_cases he : e.1 = c
    · rw [if_pos he]
      simp only [List.map_cons, List.flatten_cons]
      rw [List.append_assoc, List.append_assoc]
      exact List.Perm.append_left e.2 List.perm_append_comm
    · rw [if_neg he]
      simp only [List.map_cons, List.flatten_cons]
      rw [List.append_assoc]
      exact List.Perm.append_left e.2 ih

theorem addToGroups_keys (g : List (XenaChassis × List XenaPort))
    (c : XenaChassis) (p : XenaPort) :
    (addToGroups g c p).map Prod.fst =
      if c ∈ g.map Prod.fst then g.map Prod.fst else g.map Prod.fst ++ [c] := by
  induction g with
  | nil => simp [addToGroups]
  | cons e rest ih =>
    rw [addToGroups]
    by_cases he : e.1 = c
    · rw [if_pos he]
      simp [he]
    · rw [if_neg he]
      simp only [List.map_cons, ih, List.mem_cons]
      by_cases hc : c ∈ rest.map Prod.fst
      · rw [if_pos hc, if_pos (Or.inr hc)]
      · rw [if_neg hc, if_neg (by rintro (he' | hc'); exact he he'.symm; exact hc hc')]
        simp

theorem addToGroups_keys_nodup (g : List (XenaChassis × List XenaPort))
    (c : XenaChassis) (p : XenaPort) (h : (g.map Prod.fst).Nodup) :
    ((addToGroups g c p).map Prod.fst).Nodup := by
  rw [addToGroups_keys]
  by_cases hc : c ∈ g.map Prod.fst
  · rw [if_pos hc]; exact h
  · rw [if_neg hc]
    exact List.Nodup.append h (List.nodup_singleton c) (by simpa using hc)

theorem mem_addToGroups_keys (g : List (XenaChassis × List XenaPort))
    (c : XenaChassis) (p : XenaPort) (a : XenaChassis) :
    a ∈ (addToGroups g c p).map Prod.fst ↔ a ∈ g.map Prod.fst ∨ a = c := by
  rw [addToGroups_keys]
  by_cases hc : c ∈ g.map Prod.fst
  · rw [if_pos hc]
    constructor
    · exact Or.inl
    · rintro (ha | rfl)
      · exact ha
      · exact hc
  · rw [if_neg hc]
    simp

theorem addToGroups_inv (g : List (XenaChassis × List XenaPort))
    (c : XenaChassis) (p : XenaPort)
    (P : XenaChassis → XenaPort → Prop)
    (hg : ∀ e ∈ g, ∀ q ∈ e.2, P e.1 q) (hp : P c p) :
    ∀ e ∈ addToGroups g c p, ∀ q ∈ e.2, P e.1 q := by
  induction g with
  | nil =>
    intro e he q hq
    rw [addToGroups] at he
    rcases List.mem_singleton.mp he with rfl
    rcases List.mem_singleton.mp hq with rfl
    exact hp
  | cons e0 rest ih =>
    intro e he q hq
    rw [addToGroups] at he
    by_cases h0 : e0.1 = c
    · rw [if_pos h0] at he
      rcases List.mem_cons.mp he with rfl | he'
      · rcases List.mem_append.mp hq with hq' | hq'
        · exact hg e0 (List.mem_cons_self _ _) q hq'
        · rcases List.mem_singleton.mp hq' with rfl
          exact h0 ▸ hp
      · exact hg e (List.mem_cons_of_mem _ he') q hq
    · rw [if_neg h0] at he
      rcases List.mem_cons.mp he with rfl | he'
      · exact hg e (List.mem_cons_self _ _) q hq
      · exact ih (fun e' he' => hg e' (List.mem_cons_of_mem _ he')) e he' q hq

theorem perChassisGo_ok (s : XenaSession) (ports : List XenaPort)
    (h : ∀ p ∈ ports, (s.findByName (portChassisKey p)).isSome) :
    ∀ g, ∃ groups, perChassisGo s ports g = Except.ok groups := by
  induction ports with
  | nil => intro g; exact ⟨g, rfl⟩
  | cons p rest ih =>
    intro g
    obtain ⟨c, hc⟩ := Option.isSome_iff_exists.mp (h p (List.mem_cons_self _ _))
    obtain ⟨groups, hg⟩ := ih (fun q hq => h q (List.mem_cons_of_mem _ hq)) (addToGroups g c p)
    exact ⟨groups, by rw [perChassisGo, hc]; exact hg⟩

theorem perChassisGo_perm (s : XenaSession) (ports : List XenaPort) :
    ∀ g groups, perChassisGo s ports g = Except.ok groups →
      ((groups.map Prod.snd).flatten).Perm ((g.map Prod.snd).flatten ++ ports) := by
  induction ports with
  | nil =>
    intro g groups h
    rw [perChassisGo] at h
    cases h
    simp
  | cons p rest ih =>
    intro g groups h
    rw [perChassisGo] at h
    cases hf : s.findByName (portChassisKey p) with
    | none => rw [hf] at h; cases h
    | some c =>
      rw [hf] at h
      have h1 := ih (addToGroups g c p) groups h
      have h2 := (addToGroups_flatten_perm g c p).append_right rest
      have h3 : ((g.map Prod.snd).flatten ++ [p]) ++ rest =
          (g.map Prod.snd).flatten ++ (p :: rest) := by simp
      exact h1.trans (h3 ▸ h2)

theorem perChassisGo_content (s : XenaSession) (ports : List XenaPort)
    (P : XenaChassis → XenaPort → Prop)
    (hports : ∀ p ∈ ports, ∀ c, s.findByName (portChassisKey p) = some c → P c p) :
    ∀ g groups, perChassisGo s ports g = Except.ok groups →
      (∀ e ∈ g, ∀ q ∈ e.2, P e.1 q) →
      ∀ e ∈ groups, ∀ q ∈ e.2, P e.1 q := by
  induction ports with
  | nil =>
    intro g groups h hg
    rw [perChassisGo] at h
    cases h
    exact hg
  | cons p rest ih =>
    intro g groups h hg
    rw [perChassisGo] at h
    cases hf : s.findByName (portChassisKey p) with
    | none => rw [hf] at h; cases h
    | some c =>
      rw [hf] at h
      exact ih (fun q hq => hports q (List.mem_cons_of_mem _ hq)) _ groups h
        (addToGroups_inv g c p P hg
          (hports p (List.mem_cons_self _ _) c hf))

/-! ### Further helper lemmas -/

theorem any_fst_eq_iff {α : Type} (l : List (String × α)) (k : String) :
    (l.any fun kv => kv.1 == k) = true ↔ k ∈ l.map Prod.fst := by
  rw [List.any_eq_true]
  constructor
  · rintro ⟨kv, hkv, he⟩
    exact List.mem_map.mpr ⟨kv, hkv, beq_iff_eq.mp he⟩
  · intro h
    obtain ⟨kv, hkv, he⟩ := List.mem_map.mp h
    exact ⟨kv, hkv, beq_iff_eq.mpr he⟩

theorem mem_chassis_list_keys (s : XenaSession) (a : String) :
    a ∈ s.chassis_list.map Prod.fst ↔ a ∈ s.ips := by
  rw [XenaSession.chassis_list, mem_buildDict_keys, List.map_map]
  rfl

theorem chassis_list_any_iff (s : XenaSession) (ip : String) :
    (s.chassis_list.any fun kv => kv.1 == ip) = true ↔ ip ∈ s.ips := by
  rw [any_fst_eq_iff, mem_chassis_list_keys]

theorem count_flatten {β : Type} [DecidableEq β] (L : List (List β)) (b : β) :
    L.flatten.count b = (L.map (fun l => l.count b)).sum := by
  induction L with
  | nil => simp
  | cons l rest ih => simp [List.count_append, ih]

theorem map_sum_count_eq_one {β : Type} (l : List β) (f : β → Nat) (a : β)
    (ha : a ∈ l) (hnd : l.Nodup) (h1 : f a = 1)
    (h0 : ∀ b ∈ l, b ≠ a → f b = 0) : (l.map f).sum = 1 := by
  induction l with
  | nil => cases ha
  | cons b rest ih =>
    have hbr := List.nodup_cons.mp hnd
    rcases List.mem_cons.mp ha with rfl | ha'
    · have : ∀ c ∈ rest, f c = 0 := by
        intro c hc
        exact h0 c (List.mem_cons_of_mem _ hc) (by rintro rfl; exact hbr.1 hc)
      have hz : (rest.map f).sum = 0 := by
        rw [List.sum_eq_zero]
        intro x hx
        obtain ⟨c, hc, rfl⟩ := List.mem_map.mp hx
        exact this c hc
      simp [h1, hz]
    · have hb : f b = 0 := h0 b (List.mem_cons_self _ _) (by rintro rfl; exact hbr.1 ha')
      simp only [List.map_cons, List.sum_cons, hb, Nat.zero_add]
      exact ih ha' hbr.2 (fun c hc hca => h0 c (List.mem_cons_of_mem _ hc) hca)

theorem release_ports_eq (c : XenaChassis) :
    c.release_ports = (c.ports.map Prod.fst).map Ev.release := by
  unfold XenaChassis.release_ports
  rw [List.map_map, List.map_map]
  refine List.map_congr_left ?_
  intro kv hkv
  have := (chassis_ports_spec c kv hkv).2.2
  simp [Function.comp, this]

theorem portsDict_values_names (s : XenaSession) :
    (s.portsDict.map Prod.snd).map XenaPort.name = s.portsDict.map Prod.fst := by
  rw [List.map_map]
  refine List.map_congr_left ?_
  intro kv hkv
  obtain ⟨c, _, hc⟩ := portsDict_spec s kv hkv
  exact ((chassis_ports_spec c kv hc).2.2).symm

/-! ### Claim theorems: chassis local operations -/

/-- Claim C3: adding a chassis whose address is already known is a silent no-op
(no new node, no logon commands, no error), a second add with the same address
changes nothing, and starting from a session without that address two successive
adds leave exactly one chassis node carrying it. -/
theorem add_chassis_idempotent (s : XenaSession) (ip pw pw' : String) :
    (ip ∈ s.ips → s.add_chassis ip pw = (s, [])) ∧
    ((s.add_chassis ip pw).1.add_chassis ip pw' = ((s.add_chassis ip pw).1, [])) ∧
    (s.ips.count ip = 0 →
      ((s.add_chassis ip pw).1.add_chassis ip pw').1.ips.count ip = 1) := by
  have noop : ∀ s' : XenaSession, ip ∈ s'.ips → ∀ pw0, s'.add_chassis ip pw0 = (s', []) := by
    intro s' h pw0
    unfold XenaSession.add_chassis
    rw [if_pos ((chassis_list_any_iff s' ip).mpr h)]
  have hmem1 : ip ∈ (s.add_chassis ip pw).1.ips := by
    unfold XenaSession.add_chassis
    by_cases h : (s.chassis_list.any fun kv => kv.1 == ip) = true
    · rw [if_pos h]
      exact (chassis_list_any_iff s ip).mp h
    · rw [if_neg h]
      unfold XenaSession.ips
      simp
  refine ⟨fun h => noop s h pw, noop _ hmem1 pw', fun hz => ?_⟩
  rw [noop _ hmem1 pw']
  have hni : ip ∉ s.ips := List.count_eq_zero.mp hz
  unfold XenaSession.add_chassis
  rw [if_neg (fun h => hni ((chassis_list_any_iff s ip).mp h))]
  unfold XenaSession.ips
  simp only [List.map_append, List.map_cons, List.map_nil, List.count_append]
  have h0 : List.count ip (List.map (fun c : XenaChassis => c.ip) s.chassis) = 0 := hz
  rw [h0]
  simp

/-- Claim C4: a chassis traffic start or stop over a nonempty port list sends
exactly one combined c_traffic command whose argument joins the module/port index
pairs of every listed port with slashes stripped, followed by one short poll
(timeout 40, expected the commanded value) per port in order, all ports being
polled on success; wait_traffic instead polls each port for off with the
practically unbounded timeout 2628000 = int(2.628e+6). -/
theorem traffic_command_shape (c : XenaChassis) (obs : String → Nat → String)
    (command : String) (P : List XenaPort) (hP : P ≠ []) :
    (∃ k ≤ P.length,
      (c._traffic_command obs command P).1 =
        Ev.cmd c.ip "c_traffic"
            [command, String.intercalate " " (P.map fun p => replaceChar '/' ' ' p.ref)] ::
          ((P.take k).map fun p => Ev.poll p.name "p_traffic" 40 [command]) ∧
      ((c._traffic_command obs command P).2 = Except.ok () → k = P.length)) ∧
    (∃ k2 ≤ P.length,
      (XenaChassis.wait_traffic obs P).1 =
        (P.take k2).map (fun p => Ev.poll p.name "p_traffic" 2628000 ["off"]) ∧
      ((XenaChassis.wait_traffic obs P).2 = Except.ok () → k2 = P.length)) := by
  have hop : c._get_operation_ports P = P := by
    unfold XenaChassis._get_operation_ports
    rw [if_neg (by simpa using hP)]
  have key : c._traffic_command obs command P =
      (Ev.cmd c.ip "c_traffic"
          [command, String.intercalate " " (P.map fun p => replaceChar '/' ' ' p.ref)] ::
        (pollPorts obs "p_traffic" 40 [command] P).1,
       (pollPorts obs "p_traffic" 40 [command] P).2) := by
    unfold XenaChassis._traffic_command
    rw [hop]
  constructor
  · obtain ⟨k, hk, htr, hok⟩ := pollPorts_shape obs "p_traffic" 40 [command] P
    refine ⟨k, hk, ?_, ?_⟩
    · rw [key, htr]
    · intro h
      rw [key] at h
      exact hok h
  · obtain ⟨k2, hk2, htr, hok⟩ := pollPorts_shape obs "p_traffic" 2628000 ["off"] P
    exact ⟨k2, hk2, htr, hok⟩

/-- The successful path of the XenaChassis.reserve_ports loop: each location gets a
fresh node, a reserve and an immediate reset, in list order. -/
theorem chassisReserveGo_ok (ip : String) (resv : String → Bool) (force : Bool)
    (locs : List String)
    (h : ∀ loc ∈ locs, resv (ip ++ "/" ++ loc) = false ∨ force = true) :
    ∀ ch tr, chassisReserveGo ip resv force locs ch tr =
      (ch ++ locs.map ChassisChild.port,
       tr ++ (locs.map fun loc =>
         [Ev.reserve (ip ++ "/" ++ loc) force, Ev.reset (ip ++ "/" ++ loc)]).flatten,
       Except.ok ()) := by
  induction locs with
  | nil => intro ch tr; simp [chassisReserveGo]
  | cons loc rest ih =>
    intro ch tr
    have hcond : (resv (ip ++ "/" ++ loc) && !force) = false := by
      rcases h loc (List.mem_cons_self _ _) with h1 | h1
      · rw [h1]; rfl
      · rw [h1]; simp
    rw [chassisReserveGo]
    simp only [hcond, Bool.false_eq_true, if_false]
    rw [ih (fun l hl => h l (List.mem_cons_of_mem _ hl))]
    simp

/-- Claim C5: Chassis.reserve_ports reserves each listed port and resets it to
factory defaults immediately after the successful reservation (reserve then reset,
adjacent, per port, in order), finally returning the chassis port dictionary. -/
theorem chassis_reserve_ports_spec (c : XenaChassis) (resv : String → Bool)
    (force : Bool) (locs : List String)
    (Hok : ∀ loc ∈ locs, resv (c.ip ++ "/" ++ loc) = false ∨ force = true) :
    XenaChassis.reserve_ports c resv locs force =
      ({ c with children := c.children ++ locs.map ChassisChild.port },
       (locs.map fun loc =>
         [Ev.reserve (c.ip ++ "/" ++ loc) force, Ev.reset (c.ip ++ "/" ++ loc)]).flatten,
       Except.ok ({ c with children := c.children ++ locs.map ChassisChild.port } :
          XenaChassis).ports) := by
  unfold XenaChassis.reserve_ports
  rw [chassisReserveGo_ok c.ip resv force locs Hok c.children []]
  simp [Except.map]

/-- Claim C10: reserve_ports always attaches a fresh port node, so a location that
already has a port node under the chassis ends up with two children carrying the
same name, of which the name-keyed port dictionary keeps exactly one entry. -/
theorem reserve_duplicates_node (c : XenaChassis) (resv : String → Bool)
    (force : Bool) (loc : String) (Hdup : loc ∈ c.portRefList) :
    (XenaChassis.reserve_ports c resv [loc] force).1.children =
        c.children ++ [ChassisChild.port loc] ∧
    2 ≤ (XenaChassis.reserve_ports c resv [loc] force).1.portRefList.count loc ∧
    ((XenaChassis.reserve_ports c resv [loc] force).1.ports.map Prod.fst).count
        (c.ip ++ "/" ++ loc) = 1 := by
  have hch : (XenaChassis.reserve_ports c resv [loc] force).1 =
      { c with children := c.children ++ [ChassisChild.port loc] } := by
    unfold XenaChassis.reserve_ports chassisReserveGo
    by_cases h : (resv (c.ip ++ "/" ++ loc) && !force) = true
    · simp only [h, if_true]
    · simp only [h, if_false]
      rw [chassisReserveGo]
      simp
  have hpl : ({ c with children := c.children ++ [ChassisChild.port loc] } :
      XenaChassis).portRefList = c.portRefList ++ [loc] := by
    unfold XenaChassis.portRefList
    simp
  refine ⟨by rw [hch], ?_, ?_⟩
  · rw [hch, hpl, List.count_append]
    have h1 : 1 ≤ c.portRefList.count loc := by
      rw [Nat.one_le_iff_ne_zero]
      intro h0
      exact (List.count_eq_zero.mp h0) Hdup
    have h2 : (List.count loc [loc]) = 1 := by simp
    omega
  · rw [hch]
    have hm : c.ip ++ "/" ++ loc ∈
        (({ c with children := c.children ++ [ChassisChild.port loc] } :
          XenaChassis).ports).map Prod.fst := by
      rw [mem_chassis_ports_keys]
      exact ⟨loc, by rw [hpl]; simp, rfl⟩
    exact List.count_eq_one_of_mem (buildDict_keys_nodup _) hm

/-- Claim C8: a module inventory takes its port count from m_portcount when
m_cfptype contains NOTCFP and from the first whitespace token of m_cfpconfig
otherwise, then builds one port node per index 0..count-1, each indexed by the
module index and the port index. -/
theorem module_inventory_spec (mref : Nat) (info : MInfo) :
    (∀ n : Int, containsSub info.m_cfptype "NOTCFP" = true →
      pyInt info.m_portcount = some n →
      XenaModule.inventory mref info = Except.ok
        { ref := mref,
          portRefs := (List.range n.toNat).map fun p =>
            toString mref ++ "/" ++ toString p }) ∧
    (∀ (t : String) (ts : List String) (n : Int),
      containsSub info.m_cfptype "NOTCFP" = false →
      pySplit info.m_cfpconfig = t :: ts → pyInt t = some n →
      XenaModule.inventory mref info = Except.ok
        { ref := mref,
          portRefs := (List.range n.toNat).map fun p =>
            toString mref ++ "/" ++ toString p }) := by
  constructor
  · intro n hc hp
    unfold XenaModule.inventory
    rw [if_pos hc, hp]
    rfl
  · intro t ts n hc hsp hp
    unfold XenaModule.inventory
    rw [if_neg (by simp [hc]), hsp]
    simp [hp, Except.map]

/-! ### Inventory lemmas and claims C7, C8 -/

theorem except_map_ok {ε α β : Type} (f : α → β) (x : Except ε α) (b : β)
    (h : x.map f = Except.ok b) : ∃ a, x = Except.ok a ∧ f a = b := by
  cases x with
  | error e => simp [Except.map] at h
  | ok a => exact ⟨a, rfl, by simpa [Except.map] using h⟩

theorem module_inventory_ref (mref : Nat) (info : MInfo) (m : XenaModule)
    (h : XenaModule.inventory mref info = Except.ok m) : m.ref = mref := by
  unfold XenaModule.inventory at h
  obtain ⟨n, _, hm⟩ := except_map_ok _ _ _ h
  rw [← hm]

theorem chassisInventoryGo_ok (minfo : Nat → MInfo) (l : List (Nat × String))
    (Hp : ∀ e ∈ l, ∃ n : Int, pyInt e.2 = some n)
    (Hm : ∀ e ∈ l, ∃ m, XenaModule.inventory e.1 (minfo e.1) = Except.ok m) :
    ∀ acc, ∃ ms : List XenaModule,
      chassisInventoryGo minfo l acc = Except.ok (acc ++ ms.map ChassisChild.module) ∧
      ms.map XenaModule.ref = (l.filter fun e => !(pyInt e.2 == some 0)).map Prod.fst ∧
      ∀ m ∈ ms, XenaModule.inventory m.ref (minfo m.ref) = Except.ok m := by
  induction l with
  | nil =>
    intro acc
    exact ⟨[], by simp [chassisInventoryGo], by simp, by simp⟩
  | cons e rest ih =>
    intro acc
    obtain ⟨n, hn⟩ := Hp e (List.mem_cons_self _ _)
    obtain ⟨m, hm⟩ := Hm e (List.mem_cons_self _ _)
    have Hp' : ∀ e' ∈ rest, ∃ n : Int, pyInt e'.2 = some n :=
      fun e' he' => Hp e' (List.mem_cons_of_mem _ he')
    have Hm' : ∀ e' ∈ rest, ∃ m', XenaModule.inventory e'.1 (minfo e'.1) = Except.ok m' :=
      fun e' he' => Hm e' (List.mem_cons_of_mem _ he')
    by_cases hz : n = 0
    · subst hz
      obtain ⟨ms, h1, h2, h3⟩ := ih Hp' Hm' acc
      refine ⟨ms, ?_, ?_, h3⟩
      · rw [chassisInventoryGo, hn]
        simp only [ne_eq, not_true_eq_false, if_false]
        exact h1
      · rw [List.filter_cons, if_neg (by simp [hn])]
        exact h2
    · obtain ⟨ms, h1, h2, h3⟩ := ih Hp' Hm' (acc ++ [ChassisChild.module m])
      have hr : m.ref = e.1 := module_inventory_ref e.1 (minfo e.1) m hm
      refine ⟨m :: ms, ?_, ?_, ?_⟩
      · rw [chassisInventoryGo, hn]
        simp only [ne_eq, hz, not_false_eq_true, if_true, hm]
        rw [h1]
        simp
      · rw [List.filter_cons, if_pos (by simp [hn, hz])]
        simp only [List.map_cons]
        rw [h2, hr]
      · intro m' hm'
        rcases List.mem_cons.mp hm' with rfl | hm''
        · rw [hr]; exact hm
        · exact h3 m' hm''

/-- Claim C7: chassis inventory reads the c_portcounts attribute as a
whitespace-separated per-module port-count vector and constructs (and recursively
inventories) one module child for exactly the vector positions carrying a nonzero
count, the position being the module index; zero-count positions yield no module. -/
theorem chassis_inventory_spec (c : XenaChassis) (pc : String) (minfo : Nat → MInfo)
    (Hp : ∀ e ∈ (pySplit pc).enum, ∃ n : Int, pyInt e.2 = some n)
    (Hm : ∀ e ∈ (pySplit pc).enum, ∃ m, XenaModule.inventory e.1 (minfo e.1) = Except.ok m) :
    ∃ ms : List XenaModule,
      c.inventory pc minfo =
        Except.ok { c with children := c.children ++ ms.map ChassisChild.module } ∧
      ms.map XenaModule.ref =
        ((pySplit pc).enum.filter fun e => !(pyInt e.2 == some 0)).map Prod.fst ∧
      ∀ m ∈ ms, XenaModule.inventory m.ref (minfo m.ref) = Except.ok m := by
  obtain ⟨ms, h1, h2, h3⟩ := chassisInventoryGo_ok minfo _ Hp Hm c.children
  refine ⟨ms, ?_, h2, h3⟩
  rw [XenaChassis.inventory, h1]
  rfl

/-! ### Session reserve lemmas and claim C9 -/

theorem reserve_ports_ip (c : XenaChassis) (resv : String → Bool)
    (locs : List String) (force : Bool) :
    (XenaChassis.reserve_ports c resv locs force).1.ip = c.ip := by
  unfold XenaChassis.reserve_ports
  cases hgo : chassisReserveGo c.ip resv force locs c.children [] with
  | mk ch pr => rfl

theorem chassis_reserve_single (c : XenaChassis) (resv : String → Bool)
    (force : Bool) (loc : String) :
    XenaChassis.reserve_ports c resv [loc] force =
      ({ c with children := c.children ++ [ChassisChild.port loc] },
       (if resv (c.ip ++ "/" ++ loc) && !force then
          [Ev.reserve (c.ip ++ "/" ++ loc) force]
        else [Ev.reserve (c.ip ++ "/" ++ loc) force, Ev.reset (c.ip ++ "/" ++ loc)]),
       (if resv (c.ip ++ "/" ++ loc) && !force then
          Except.error XenaError.reservationConflict
        else Except.ok ({ c with children := c.children ++ [ChassisChild.port loc] } :
          XenaChassis).ports)) := by
  unfold XenaChassis.reserve_ports chassisReserveGo
  by_cases h : (resv (c.ip ++ "/" ++ loc) && !force) = true
  · simp [h, Except.map]
  · simp only [h, Bool.false_eq_true, if_false]
    rw [chassisReserveGo]
    simp [h, Except.map]

theorem sessionReserveStep_eq3 (resv : String → Bool) (force : Bool)
    (s : XenaSession) (loc ip m p : String) (hsp : strSplit '/' loc = [ip, m, p]) :
    sessionReserveStep resv force s loc =
      match dictLookup s.chassis_list ip with
      | none => (s, [], Except.error XenaError.keyError)
      | some c =>
        match XenaChassis.reserve_ports c resv [m ++ "/" ++ p] force with
        | (c', tr', r) =>
          ({ s with chassis := s.chassis.map fun cc => if cc.ip == ip then c' else cc },
           tr', r.map fun _ => ()) := by
  unfold sessionReserveStep
  rw [hsp]

theorem sessionReserveStep_ips (resv : String → Bool) (force : Bool)
    (s : XenaSession) (loc : String) :
    (sessionReserveStep resv force s loc).1.ips = s.ips := by
  unfold sessionReserveStep
  split
  · rename_i ip m p heq
    cases hlk : dictLookup s.chassis_list ip with
    | none => rfl
    | some c =>
      show ({ s with chassis := s.chassis.map fun cc =>
          if cc.ip == ip then (XenaChassis.reserve_ports c resv [m ++ "/" ++ p] force).1
          else cc } : XenaSession).ips = s.ips
      have hcip : c.ip = ip :=
        (chassis_list_spec s (ip, c) (dictLookup_mem _ _ _ hlk)).2.symm
      have hc' : (XenaChassis.reserve_ports c resv [m ++ "/" ++ p] force).1.ip = c.ip :=
        reserve_ports_ip c resv [m ++ "/" ++ p] force
      simp only [XenaSession.ips, List.map_map]
      refine List.map_congr_left ?_
      intro cc _
      by_cases hcc : (cc.ip == ip) = true
      · simp [Function.comp, hcc, hc', hcip, beq_iff_eq.mp hcc]
      · simp [Function.comp, hcc]
  · rfl

theorem sessionReserveGo_ips (resv : String → Bool) (force : Bool) :
    ∀ (locs : List String) (s : XenaSession) (tr : List Ev),
      (sessionReserveGo resv force locs s tr).1.ips = s.ips := by
  intro locs
  induction locs with
  | nil => intro s tr; rfl
  | cons loc rest ih =>
    intro s tr
    rw [sessionReserveGo]
    cases hst : sessionReserveStep resv force s loc with
    | mk s' pr =>
      cases pr with
      | mk tr' r =>
        have hips : s'.ips = s.ips := by
          have := sessionReserveStep_ips resv force s loc
          rw [hst] at this
          exact this
        cases r with
        | error e => simpa using hips
        | ok u => rw [ih s' (tr ++ tr')]; exact hips

theorem sessionReserveGo_trace (resv : String → Bool) (force : Bool) :
    ∀ (locs : List String) (s : XenaSession) (tr : List Ev),
      ∃ suffix, (sessionReserveGo resv force locs s tr).2.1 = tr ++ suffix := by
  intro locs
  induction locs with
  | nil => intro s tr; exact ⟨[], by simp [sessionReserveGo]⟩
  | cons loc rest ih =>
    intro s tr
    rw [sessionReserveGo]
    cases hst : sessionReserveStep resv force s loc with
    | mk s' pr =>
      cases pr with
      | mk tr' r =>
        cases r with
        | error e => exact ⟨tr', rfl⟩
        | ok u =>
          obtain ⟨suf, hsuf⟩ := ih s' (tr ++ tr')
          exact ⟨tr' ++ suf, by rw [hsuf, List.append_assoc]⟩

theorem sessionReserveGo_append (resv : String → Bool) (force : Bool) :
    ∀ (l1 l2 : List String) (s : XenaSession) (tr : List Ev) (s1 : XenaSession)
      (tr1 : List Ev),
      sessionReserveGo resv force l1 s tr = (s1, tr1, Except.ok ()) →
      sessionReserveGo resv force (l1 ++ l2) s tr =
        sessionReserveGo resv force l2 s1 tr1 := by
  intro l1
  induction l1 with
  | nil =>
    intro l2 s tr s1 tr1 h
    rw [sessionReserveGo] at h
    cases h
    rfl
  | cons loc rest ih =>
    intro l2 s tr s1 tr1 h
    rw [sessionReserveGo] at h
    rw [List.cons_append, sessionReserveGo]
    cases hst : sessionReserveStep resv force s loc with
    | mk s' pr =>
      cases pr with
      | mk tr' r =>
        rw [hst] at h
        cases r with
        | error e => cases h
        | ok u => exact ih l2 s' (tr ++ tr') s1 tr1 h

theorem sessionReserveGo_events (resv : String → Bool) (force : Bool) :
    ∀ (locs : List String) (s : XenaSession) (tr : List Ev) (s1 : XenaSession)
      (tr1 : List Ev),
      sessionReserveGo resv force locs s tr = (s1, tr1, Except.ok ()) →
      ∀ loc ∈ locs, ∀ ip m p, strSplit '/' loc = [ip, m, p] →
        Ev.reserve (ip ++ "/" ++ (m ++ "/" ++ p)) force ∈ tr1 ∧
        Ev.reset (ip ++ "/" ++ (m ++ "/" ++ p)) ∈ tr1 := by
  intro locs
  induction locs with
  | nil => intro s tr s1 tr1 h loc hloc; cases hloc
  | cons loc0 rest ih =>
    intro s tr s1 tr1 h loc hloc ip m p hsp
    rw [sessionReserveGo] at h
    cases hst : sessionReserveStep resv force s loc0 with
    | mk s' pr =>
      cases pr with
      | mk tr' r =>
        rw [hst] at h
        cases r with
        | error e => cases h
        | ok u =>
          rcases List.mem_cons.mp hloc with rfl | hloc'
          · rw [sessionReserveStep_eq3 resv force s loc ip m p hsp] at hst
            cases hlk : dictLookup s.chassis_list ip with
            | none => rw [hlk] at hst; simp at hst
            | some c =>
              rw [hlk] at hst
              have hcip : c.ip = ip :=
                (chassis_list_spec s (ip, c) (dictLookup_mem _ _ _ hlk)).2.symm
              have hst' : (({ s with chassis := s.chassis.map fun cc =>
                      if cc.ip == ip then
                        (XenaChassis.reserve_ports c resv [m ++ "/" ++ p] force).1
                      else cc } : XenaSession),
                    (XenaChassis.reserve_ports c resv [m ++ "/" ++ p] force).2.1,
                    ((XenaChassis.reserve_ports c resv [m ++ "/" ++ p] force).2.2).map
                      fun _ => ()) = (s', tr', Except.ok u) := hst
              rw [chassis_reserve_single c resv force (m ++ "/" ++ p)] at hst'
              by_cases hcond : (resv (c.ip ++ "/" ++ (m ++ "/" ++ p)) && !force) = true
              · have hbad := congrArg (fun x => x.2.2) hst'
                simp [hcond, Except.map] at hbad
              · have htr' : tr' = [Ev.reserve (c.ip ++ "/" ++ (m ++ "/" ++ p)) force,
                    Ev.reset (c.ip ++ "/" ++ (m ++ "/" ++ p))] := by
                  have hcc := congrArg (fun x => x.2.1) hst'
                  simp only [hcond, Bool.false_eq_true, if_false] at hcc
                  exact hcc.symm
                obtain ⟨suf, hsuf⟩ := sessionReserveGo_trace resv force rest s' (tr ++ tr')
                have h2 : sessionReserveGo resv force rest s' (tr ++ tr') =
                    (s1, tr1, Except.ok ()) := h
                rw [h2] at hsuf
                have hsuf' : tr1 = (tr ++ tr') ++ suf := hsuf
                rw [hsuf', htr', hcip]
                constructor
                · exact List.mem_append.mpr (Or.inl (List.mem_append.mpr (Or.inr (by simp))))
                · exact List.mem_append.mpr (Or.inl (List.mem_append.mpr (Or.inr (by simp))))
          · exact ih s' (tr ++ tr') s1 tr1 h loc hloc' ip m p hsp

theorem dictLookup_chassis_none (s : XenaSession) (ip : String) (h : ip ∉ s.ips) :
    dictLookup s.chassis_list ip = none :=
  (dictLookup_eq_none_iff _ _).mpr (fun hm => h ((mem_chassis_list_keys s ip).mp hm))

/-- Claim C9: Session.reserve_ports with a location naming an unknown chassis ip
raises a bare key-lookup error (KeyError), not the NotFound error of the spec
taxonomy, and the reservations already performed for earlier locations are kept:
the final state and trace are those of the successful prefix, so the operation is
not atomic on error. -/
theorem session_reserve_keyerror (s : XenaSession) (resv : String → Bool)
    (force : Bool) (locs1 rest : List String) (bad ip m p : String)
    (Hsplit : strSplit '/' bad = [ip, m, p]) (Hbad : ip ∉ s.ips)
    (Hpre : ∃ d, (s.reserve_ports resv locs1 force).2.2 = Except.ok d) :
    (s.reserve_ports resv (locs1 ++ bad :: rest) force).1 =
        (s.reserve_ports resv locs1 force).1 ∧
    (s.reserve_ports resv (locs1 ++ bad :: rest) force).2.1 =
        (s.reserve_ports resv locs1 force).2.1 ∧
    (s.reserve_ports resv (locs1 ++ bad :: rest) force).2.2 =
        Except.error XenaError.keyError ∧
    (∀ loc ∈ locs1, ∀ ip' m' p', strSplit '/' loc = [ip', m', p'] →
      Ev.reserve (ip' ++ "/" ++ (m' ++ "/" ++ p')) force ∈
        (s.reserve_ports resv (locs1 ++ bad :: rest) force).2.1 ∧
      Ev.reset (ip' ++ "/" ++ (m' ++ "/" ++ p')) ∈
        (s.reserve_ports resv (locs1 ++ bad :: rest) force).2.1) := by
  cases hgo : sessionReserveGo resv force locs1 s [] with
  | mk s1 pr =>
    cases pr with
    | mk tr1 r1 =>
      have hw : s.reserve_ports resv locs1 force =
          (s1, tr1, r1.map fun _ => s1.portsDict) := by
        unfold XenaSession.reserve_ports
        rw [hgo]
      obtain ⟨d, hd⟩ := Hpre
      rw [hw] at hd
      have hr1 : r1 = Except.ok () := by
        cases r1 with
        | error e => simp [Except.map] at hd
        | ok u => cases u; rfl
      subst hr1
      have happ := sessionReserveGo_append resv force locs1 (bad :: rest) s [] s1 tr1 hgo
      have hips1 : s1.ips = s.ips := by
        have := sessionReserveGo_ips resv force locs1 s []
        rw [hgo] at this
        exact this
      have hlk : dictLookup s1.chassis_list ip = none :=
        dictLookup_chassis_none s1 ip (fun hm => Hbad (hips1 ▸ hm))
      have hstep : sessionReserveStep resv force s1 bad =
          (s1, [], Except.error XenaError.keyError) := by
        rw [sessionReserveStep_eq3 resv force s1 bad ip m p Hsplit, hlk]
      have hfull : sessionReserveGo resv force (locs1 ++ bad :: rest) s [] =
          (s1, tr1, Except.error XenaError.keyError) := by
        rw [happ, sessionReserveGo, hstep]
        simp
      have hwf : s.reserve_ports resv (locs1 ++ bad :: rest) force =
          (s1, tr1, Except.error XenaError.keyError) := by
        unfold XenaSession.reserve_ports
        rw [hfull]
        rfl
      refine ⟨by rw [hwf, hw], by rw [hwf, hw], by rw [hwf], ?_⟩
      intro loc hloc ip' m' p' hsp'
      have hev := sessionReserveGo_events resv force locs1 s [] s1 tr1 hgo loc hloc
        ip' m' p' hsp'
      rw [hwf]
      exact hev

/-! ### Traffic lemmas and claim C1 -/

theorem traffic_command_eq (c : XenaChassis) (obs : String → Nat → String)
    (cmd : String) (ps : List XenaPort) :
    c._traffic_command obs cmd ps =
      (Ev.cmd c.ip "c_traffic"
          [cmd, String.intercalate " "
            ((c._get_operation_ports ps).map fun p => replaceChar '/' ' ' p.ref)] ::
        (pollPorts obs "p_traffic" 40 [cmd] (c._get_operation_ports ps)).1,
       (pollPorts obs "p_traffic" 40 [cmd] (c._get_operation_ports ps)).2) := by
  unfold XenaChassis._traffic_command
  rfl

theorem chassis_start_false (c : XenaChassis) (obs : String → Nat → String)
    (ps : List XenaPort) :
    c.start_traffic obs false ps = c._traffic_command obs "on" ps := by
  unfold XenaChassis.start_traffic
  cases htc : c._traffic_command obs "on" ps with
  | mk tr r =>
    cases r with
    | error e => rfl
    | ok u => cases u; rfl

theorem startGroups_mem (obs : String → Nat → String)
    (groups : List (XenaChassis × List XenaPort)) (ev : Ev)
    (h : ev ∈ (startGroups obs groups).1) :
    (∃ a b, ev = Ev.cmd a "c_traffic" b) ∨
    (∃ port, ev = Ev.poll port "p_traffic" 40 ["on"]) := by
  induction groups with
  | nil => simp [startGroups] at h
  | cons e rest ih =>
    rw [startGroups] at h
    have hmem : ∀ ev', ev' ∈ (e.1.start_traffic obs false e.2).1 →
        (∃ a b, ev' = Ev.cmd a "c_traffic" b) ∨
        (∃ port, ev' = Ev.poll port "p_traffic" 40 ["on"]) := by
      intro ev' hev'
      rw [chassis_start_false, traffic_command_eq] at hev'
      rcases List.mem_cons.mp hev' with rfl | hev''
      · exact Or.inl ⟨_, _, rfl⟩
      · obtain ⟨p, _, rfl⟩ := pollPorts_mem obs _ _ _ _ ev' hev''
        exact Or.inr ⟨p.name, rfl⟩
    cases hst : e.1.start_traffic obs false e.2 with
    | mk tr r =>
      rw [hst] at h
      cases r with
      | error er =>
        have h' : ev ∈ tr := h
        have := hmem ev (by rw [hst]; exact h')
        exact this
      | ok u =>
        cases hsg : startGroups obs rest with
        | mk tr2 r2 =>
          rw [hsg] at h
          have h' : ev ∈ tr ++ tr2 := h
          rcases List.mem_append.mp h' with h1 | h1
          · exact hmem ev (by rw [hst]; exact h1)
          · exact ih (by rw [hsg]; exact h1)

theorem startGroups_err (obs : String → Nat → String)
    (groups : List (XenaChassis × List XenaPort)) (e : XenaError)
    (h : (startGroups obs groups).2 = Except.error e) : e = XenaError.timeout := by
  induction groups with
  | nil => simp [startGroups] at h
  | cons g rest ih =>
    rw [startGroups] at h
    cases hst : g.1.start_traffic obs false g.2 with
    | mk tr r =>
      rw [hst] at h
      cases r with
      | error er =>
        have h' : Except.error er = Except.error e := h
        cases h'
        have := chassis_start_false g.1 obs g.2
        rw [hst] at this
        have h2 : (g.1._traffic_command obs "on" g.2).2 = Except.error e := by
          rw [← this]
        rw [traffic_command_eq] at h2
        exact pollPorts_err obs _ _ _ _ e h2
      | ok u =>
        cases hsg : startGroups obs rest with
        | mk tr2 r2 =>
          rw [hsg] at h
          have h' : r2 = Except.error e := h
          apply ih
          rw [hsg, h']

theorem waitGroups_mem (obs : String → Nat → String)
    (groups : List (XenaChassis × List XenaPort)) (ev : Ev)
    (h : ev ∈ (waitGroups obs groups).1) :
    ∃ e ∈ groups, ∃ p ∈ e.2, ev = Ev.poll p.name "p_traffic" 2628000 ["off"] := by
  induction groups with
  | nil => simp [waitGroups] at h
  | cons g rest ih =>
    rw [waitGroups] at h
    cases hwt : XenaChassis.wait_traffic obs g.2 with
    | mk tr r =>
      rw [hwt] at h
      have hmem : ∀ ev', ev' ∈ tr →
          ∃ p ∈ g.2, ev' = Ev.poll p.name "p_traffic" 2628000 ["off"] := by
        intro ev' hev'
        have htr : tr = (pollPorts obs "p_traffic" 2628000 ["off"] g.2).1 := by
          rw [show pollPorts obs "p_traffic" 2628000 ["off"] g.2 =
            XenaChassis.wait_traffic obs g.2 from rfl, hwt]
        rw [htr] at hev'
        exact pollPorts_mem obs _ _ _ _ ev' hev'
      cases r with
      | error er =>
        obtain ⟨p, hp, rfl⟩ := hmem ev h
        exact ⟨g, List.mem_cons_self _ _, p, hp, rfl⟩
      | ok u =>
        cases hwg : waitGroups obs rest with
        | mk tr2 r2 =>
          rw [hwg] at h
          have h' : ev ∈ tr ++ tr2 := h
          rcases List.mem_append.mp h' with h1 | h1
          · obtain ⟨p, hp, rfl⟩ := hmem ev h1
            exact ⟨g, List.mem_cons_self _ _, p, hp, rfl⟩
          · obtain ⟨e, he, p, hp, rfl⟩ := ih (by rw [hwg]; exact h1)
            exact ⟨e, List.mem_cons_of_mem _ he, p, hp, rfl⟩

theorem waitGroups_err (obs : String → Nat → String)
    (groups : List (XenaChassis × List XenaPort)) (e : XenaError)
    (h : (waitGroups obs groups).2 = Except.error e) : e = XenaError.timeout := by
  induction groups with
  | nil => simp [waitGroups] at h
  | cons g rest ih =>
    rw [waitGroups] at h
    cases hwt : XenaChassis.wait_traffic obs g.2 with
    | mk tr r =>
      rw [hwt] at h
      cases r with
      | error er =>
        have h' : Except.error er = Except.error e := h
        cases h'
        have h2 : (pollPorts obs "p_traffic" 2628000 ["off"] g.2).2 = Except.error e := by
          rw [show pollPorts obs "p_traffic" 2628000 ["off"] g.2 =
            XenaChassis.wait_traffic obs g.2 from rfl, hwt]
        exact pollPorts_err obs _ _ _ _ e h2
      | ok u =>
        cases hwg : waitGroups obs rest with
        | mk tr2 r2 =>
          rw [hwg] at h
          have h' : r2 = Except.error e := h
          apply ih
          rw [hwg, h']

theorem waitGroups_ok (obs : String → Nat → String)
    (groups : List (XenaChassis × List XenaPort))
    (h : (waitGroups obs groups).2 = Except.ok ()) :
    ∀ e ∈ groups, ∀ p ∈ e.2, ∃ t, t < 2628000 ∧ obs p.name t = "off" := by
  induction groups with
  | nil => intro e he; cases he
  | cons g rest ih =>
    rw [waitGroups] at h
    intro e he p hp
    cases hwt : XenaChassis.wait_traffic obs g.2 with
    | mk tr r =>
      rw [hwt] at h
      cases r with
      | error er => cases h
      | ok u =>
        cases hwg : waitGroups obs rest with
        | mk tr2 r2 =>
          rw [hwg] at h
          have hr2 : r2 = Except.ok () := h
          rcases List.mem_cons.mp he with rfl | he'
          · have hpw : (pollPorts obs "p_traffic" 2628000 ["off"] e.2).2 =
                Except.ok () := by
              rw [show pollPorts obs "p_traffic" 2628000 ["off"] e.2 =
                XenaChassis.wait_traffic obs e.2 from rfl, hwt]
            obtain ⟨t, ht, hc⟩ := (pollPorts_ok_iff obs _ _ _ e.2).mp hpw p hp
            refine ⟨t, ht, ?_⟩
            simpa using hc
          · exact ih (by rw [hwg, hr2]) e he' p hp

theorem session_start_false_eq (s : XenaSession) (obs : String → Nat → String)
    (P : List XenaPort) (groups : List (XenaChassis × List XenaPort))
    (hg : s._per_chassis_ports (s._get_operation_ports P) = Except.ok groups) :
    s.start_traffic obs false P = startGroups obs groups := by
  unfold XenaSession.start_traffic
  rw [hg]
  simp only []
  cases hsg : startGroups obs groups with
  | mk tr r =>
    cases r with
    | error e => rfl
    | ok u => rfl

theorem session_start_true_eq (s : XenaSession) (obs : String → Nat → String)
    (P : List XenaPort) (groups : List (XenaChassis × List XenaPort))
    (hg : s._per_chassis_ports (s._get_operation_ports P) = Except.ok groups)
    (hok : (startGroups obs groups).2 = Except.ok ()) :
    s.start_traffic obs true P =
      ((startGroups obs groups).1 ++ (waitGroups obs groups).1,
       (waitGroups obs groups).2) := by
  unfold XenaSession.start_traffic
  rw [hg]
  simp only []
  cases hsg : startGroups obs groups with
  | mk tr r =>
    rw [hsg] at hok
    have hr : r = Except.ok () := hok
    subst hr
    rfl

theorem session_start_true_err (s : XenaSession) (obs : String → Nat → String)
    (P : List XenaPort) (groups : List (XenaChassis × List XenaPort))
    (hg : s._per_chassis_ports (s._get_operation_ports P) = Except.ok groups)
    (e : XenaError) (herr : (startGroups obs groups).2 = Except.error e) :
    s.start_traffic obs true P = ((startGroups obs groups).1, Except.error e) := by
  unfold XenaSession.start_traffic
  rw [hg]
  simp only []
  cases hsg : startGroups obs groups with
  | mk tr r =>
    rw [hsg] at herr
    have hr : r = Except.error e := herr
    subst hr
    rfl

/-- Claim C1 (amended): start_traffic with blocking=false issues the traffic-on
command to each affected chassis and, as part of that, polls each affected port's
p_traffic attribute for the commanded value on with the short timeout 40 — it never
polls for off; with blocking=true the on commands (with their confirmation polls)
are issued to all affected chassis first and only then the run-completion polls
(p_traffic, timeout 2628000, expected off) follow, the call returning ok only when
every affected port has been observed off, and otherwise raising Timeout. -/
theorem start_traffic_spec (s : XenaSession) (obs : String → Nat → String)
    (P : List XenaPort)
    (Hfind : ∀ p ∈ s._get_operation_ports P, (s.findByName (portChassisKey p)).isSome) :
    (∀ port attr T exp, Ev.poll port attr T exp ∈ (s.start_traffic obs false P).1 →
       T = 40 ∧ exp = ["on"]) ∧
    ((s.start_traffic obs false P).2 = Except.ok () →
       ∃ trW, (s.start_traffic obs true P).1 = (s.start_traffic obs false P).1 ++ trW ∧
         ∀ ev ∈ trW, ∃ p ∈ s._get_operation_ports P,
           ev = Ev.poll p.name "p_traffic" 2628000 ["off"]) ∧
    ((s.start_traffic obs true P).2 = Except.ok () →
       ∀ p ∈ s._get_operation_ports P, ∃ t, t < 2628000 ∧ obs p.name t = "off") ∧
    ((s.start_traffic obs true P).2 = Except.ok () ∨
       (s.start_traffic obs true P).2 = Except.error XenaError.timeout) := by
  obtain ⟨groups, hg⟩ := perChassisGo_ok s (s._get_operation_ports P) Hfind []
  have hperm : ((groups.map Prod.snd).flatten).Perm (s._get_operation_ports P) := by
    have := perChassisGo_perm s (s._get_operation_ports P) [] groups hg
    simpa using this
  have hgw : s._per_chassis_ports (s._get_operation_ports P) = Except.ok groups := hg
  refine ⟨?_, ?_, ?_, ?_⟩
  · intro port attr T exp hmem
    rw [session_start_false_eq s obs P groups hgw] at hmem
    rcases startGroups_mem obs groups _ hmem with ⟨a, b, he⟩ | ⟨q, he⟩
    · cases he
    · cases he
      exact ⟨rfl, rfl⟩
  · intro hok
    rw [session_start_false_eq s obs P groups hgw] at hok ⊢
    refine ⟨(waitGroups obs groups).1, ?_, ?_⟩
    · rw [session_start_true_eq s obs P groups hgw hok]
    · intro ev hev
      obtain ⟨e, he, p, hp, rfl⟩ := waitGroups_mem obs groups ev hev
      have hpf : p ∈ (groups.map Prod.snd).flatten :=
        List.mem_flatten.mpr ⟨e.2, List.mem_map.mpr ⟨e, he, rfl⟩, hp⟩
      exact ⟨p, hperm.mem_iff.mp hpf, rfl⟩
  · intro hok p hp
    cases hsg : (startGroups obs groups).2 with
    | error e =>
      rw [session_start_true_err s obs P groups hgw e hsg] at hok
      cases hok
    | ok u =>
      cases u
      rw [session_start_true_eq s obs P groups hgw hsg] at hok
      have hwga := waitGroups_ok obs groups hok
      have hpf : p ∈ (groups.map Prod.snd).flatten := hperm.mem_iff.mpr hp
      obtain ⟨l, hl, hpl⟩ := List.mem_flatten.mp hpf
      obtain ⟨e, he, rfl⟩ := List.mem_map.mp hl
      exact hwga e he p hpl
  · cases hsg : (startGroups obs groups).2 with
    | error e =>
      right
      rw [session_start_true_err s obs P groups hgw e hsg,
        startGroups_err obs groups e hsg]
    | ok u =>
      cases u
      rw [session_start_true_eq s obs P groups hgw hsg]
      cases hwg : (waitGroups obs groups).2 with
      | error e =>
        right
        have he := waitGroups_err obs groups e hwg
        subst he
        rfl
      | ok u2 => cases u2; left; rfl

/-! ### Grouping key lemmas and claims C2, C6 -/

theorem perChassisGo_keys_nodup (s : XenaSession) (ports : List XenaPort) :
    ∀ g groups, perChassisGo s ports g = Except.ok groups →
      (g.map Prod.fst).Nodup → (groups.map Prod.fst).Nodup := by
  induction ports with
  | nil =>
    intro g groups h hg
    rw [perChassisGo] at h
    cases h
    exact hg
  | cons p rest ih =>
    intro g groups h hg
    rw [perChassisGo] at h
    cases hf : s.findByName (portChassisKey p) with
    | none => rw [hf] at h; cases h
    | some c =>
      rw [hf] at h
      exact ih _ groups h (addToGroups_keys_nodup g c p hg)

theorem perChassisGo_keys_src (s : XenaSession) (ports : List XenaPort) :
    ∀ g groups, perChassisGo s ports g = Except.ok groups →
      ∀ a ∈ groups.map Prod.fst, a ∈ g.map Prod.fst ∨ a ∈ s.chassis := by
  induction ports with
  | nil =>
    intro g groups h a ha
    rw [perChassisGo] at h
    cases h
    exact Or.inl ha
  | cons p rest ih =>
    intro g groups h a ha
    rw [perChassisGo] at h
    cases hf : s.findByName (portChassisKey p) with
    | none => rw [hf] at h; cases h
    | some c =>
      rw [hf] at h
      rcases ih _ groups h a ha with h1 | h1
      · rcases (mem_addToGroups_keys g c p a).mp h1 with h2 | rfl
        · exact Or.inl h2
        · exact Or.inr (findByName_mem s _ a hf).1
      · exact Or.inr h1

theorem perChassisGo_keys_mono (s : XenaSession) (ports : List XenaPort) :
    ∀ g groups, perChassisGo s ports g = Except.ok groups →
      ∀ a ∈ g.map Prod.fst, a ∈ groups.map Prod.fst := by
  induction ports with
  | nil =>
    intro g groups h a ha
    rw [perChassisGo] at h
    cases h
    exact ha
  | cons p rest ih =>
    intro g groups h a ha
    rw [perChassisGo] at h
    cases hf : s.findByName (portChassisKey p) with
    | none => rw [hf] at h; cases h
    | some c =>
      rw [hf] at h
      exact ih _ groups h a ((mem_addToGroups_keys g c p a).mpr (Or.inl ha))

theorem perChassisGo_covers (s : XenaSession) (ports : List XenaPort) :
    ∀ g groups, perChassisGo s ports g = Except.ok groups →
      ∀ p ∈ ports, ∀ c, s.findByName (portChassisKey p) = some c →
        c ∈ groups.map Prod.fst := by
  induction ports with
  | nil => intro g groups h p hp; cases hp
  | cons p0 rest ih =>
    intro g groups h p hp c hc
    rw [perChassisGo] at h
    rcases List.mem_cons.mp hp with rfl | hp'
    · rw [hc] at h
      exact perChassisGo_keys_mono s rest _ groups h c
        ((mem_addToGroups_keys g c p c).mpr (Or.inr rfl))
    · cases hf : s.findByName (portChassisKey p0) with
      | none => rw [hf] at h; cases h
      | some c0 =>
        rw [hf] at h
        exact ih _ groups h p hp' c hc

/-- Claim C2: release_ports on a session whose port nodes form the reserved set S
issues the releases partitioned per owning chassis (one batch per chassis holding a
port), covering every port name of S exactly once, and no release targets a port
outside S. -/
theorem release_ports_spec (s : XenaSession)
    (Hips : s.ips.Nodup)
    (Hkey : ∀ kv ∈ s.portsDict, portChassisKey kv.2 = kv.2.chassis)
    (Hnn : ((s.chassis.map fun c => c.ports.map Prod.fst).flatten).Nodup) :
    ∃ tr, s.release_ports = Except.ok tr ∧
      (∃ cs : List XenaChassis, (∀ c ∈ cs, c ∈ s.chassis) ∧ cs.Nodup ∧
        tr = (cs.map XenaChassis.release_ports).flatten) ∧
      (∀ n ∈ s.portsDict.map Prod.fst, tr.count (Ev.release n) = 1) ∧
      (∀ ev ∈ tr, ∃ n ∈ s.portsDict.map Prod.fst, ev = Ev.release n) := by
  have hop : s._get_operation_ports [] = s.portsDict.map Prod.snd := rfl
  have Hfind : ∀ p ∈ s._get_operation_ports [],
      (s.findByName (portChassisKey p)).isSome := by
    intro p hp
    rw [hop] at hp
    obtain ⟨kv, hkv, rfl⟩ := List.mem_map.mp hp
    rw [findByName_isSome_iff, Hkey kv hkv]
    obtain ⟨c, hc, hkvc⟩ := portsDict_spec s kv hkv
    rw [(chassis_ports_spec c kv hkvc).1]
    exact List.mem_map.mpr ⟨c, hc, rfl⟩
  obtain ⟨groups, hg⟩ := perChassisGo_ok s (s._get_operation_ports []) Hfind []
  have hgw : s._per_chassis_ports (s._get_operation_ports []) = Except.ok groups := hg
  have hw : s.release_ports =
      Except.ok ((groups.map fun g => g.1.release_ports).flatten) := by
    unfold XenaSession.release_ports
    rw [hgw]
    rfl
  set cs := groups.map Prod.fst with hcs
  have hcsmem : ∀ c ∈ cs, c ∈ s.chassis := by
    intro c hc
    rcases perChassisGo_keys_src s _ [] groups hg c hc with h1 | h1
    · simp at h1
    · exact h1
  have hcsnodup : cs.Nodup := perChassisGo_keys_nodup s _ [] groups hg (by simp)
  have htr : (groups.map fun g => g.1.release_ports).flatten =
      (cs.map XenaChassis.release_ports).flatten := by
    rw [hcs, List.map_map]
    rfl
  have hchnodup : s.chassis.Nodup := List.Nodup.of_map _ Hips
  have hdisj : ∀ c ∈ s.chassis, ∀ c' ∈ s.chassis, c ≠ c' →
      (c.ports.map Prod.fst).Disjoint (c'.ports.map Prod.fst) := by
    have hpw := (List.nodup_flatten.mp Hnn).2
    rw [List.pairwise_map] at hpw
    intro c hc c' hc' hne
    exact List.Pairwise.forall (fun a b h => List.Disjoint.symm h) hpw hc hc' hne
  refine ⟨(groups.map fun g => g.1.release_ports).flatten, hw, ⟨cs, hcsmem, hcsnodup, htr⟩,
    ?_, ?_⟩
  · intro n hn
    obtain ⟨kv, hkv, rfl⟩ := List.mem_map.mp hn
    obtain ⟨c0, hc0, hkvc0⟩ := portsDict_spec s kv hkv
    have hn0 : kv.1 ∈ c0.ports.map Prod.fst := List.mem_map.mpr ⟨kv, hkvc0, rfl⟩
    have hinj : Function.Injective Ev.release := fun a b h => by injection h
    have hcov : c0 ∈ cs := by
      apply perChassisGo_covers s (s._get_operation_ports []) [] groups hg kv.2
      · rw [hop]
        exact List.mem_map.mpr ⟨kv, hkv, rfl⟩
      · rw [Hkey kv hkv, (chassis_ports_spec c0 kv hkvc0).1]
        exact findByName_self s Hips c0 hc0
    rw [htr, count_flatten, List.map_map]
    have hmap2 : (cs.map ((fun l => l.count (Ev.release kv.1)) ∘ XenaChassis.release_ports)) =
        cs.map fun c : XenaChassis => ((c.ports.map Prod.fst).count kv.1) := by
      refine List.map_congr_left ?_
      intro c _
      simp only [Function.comp_apply]
      rw [release_ports_eq, List.count_map_of_injective _ _ hinj]
    rw [hmap2]
    apply map_sum_count_eq_one cs _ c0 hcov hcsnodup
    · exact List.count_eq_one_of_mem (buildDict_keys_nodup _) hn0
    · intro c hc hne
      rw [List.count_eq_zero]
      intro hmem
      exact hdisj c (hcsmem c hc) c0 hc0 hne hmem hn0
  · intro ev hev
    obtain ⟨l, hl, hevl⟩ := List.mem_flatten.mp hev
    obtain ⟨g, hgm, rfl⟩ := List.mem_map.mp hl
    have hc : g.1 ∈ s.chassis := hcsmem g.1 (List.mem_map.mpr ⟨g, hgm, rfl⟩)
    rw [release_ports_eq] at hevl
    obtain ⟨n, hn, rfl⟩ := List.mem_map.mp hevl
    refine ⟨n, ?_, rfl⟩
    exact (mem_portsDict_keys_of_nodup s Hips n).mpr ⟨g.1, hc, hn⟩

/-- Claim C6: clear_stats groups the operation ports per owning chassis and sends
one stat-clear per port: the trace is a permutation of one clear per operation
port (so an explicit subset targets exactly the listed ports), and with no
explicit ports every session port receives exactly one clear. -/
theorem clear_stats_spec (s : XenaSession) (P : List XenaPort)
    (Hkey : ∀ p ∈ s._get_operation_ports P, portChassisKey p = p.chassis)
    (Hmem : ∀ p ∈ s._get_operation_ports P, p.chassis ∈ s.ips) :
    ∃ tr, s.clear_stats P = Except.ok tr ∧
      tr.Perm ((s._get_operation_ports P).map fun p => Ev.clearStats p.name) ∧
      (∀ ev ∈ tr, ∃ p ∈ s._get_operation_ports P, ev = Ev.clearStats p.name) ∧
      (P = [] → ∀ n ∈ s.portsDict.map Prod.fst, tr.count (Ev.clearStats n) = 1) := by
  have Hfind : ∀ p ∈ s._get_operation_ports P,
      (s.findByName (portChassisKey p)).isSome := by
    intro p hp
    rw [findByName_isSome_iff, Hkey p hp]
    exact Hmem p hp
  obtain ⟨groups, hg⟩ := perChassisGo_ok s (s._get_operation_ports P) Hfind []
  have hgw : s._per_chassis_ports (s._get_operation_ports P) = Except.ok groups := hg
  have hw : s.clear_stats P =
      Except.ok ((groups.map fun g => XenaChassis.clear_stats g.2).flatten) := by
    unfold XenaSession.clear_stats
    rw [hgw]
    rfl
  have hperm0 : ((groups.map Prod.snd).flatten).Perm (s._get_operation_ports P) := by
    have := perChassisGo_perm s (s._get_operation_ports P) [] groups hg
    simpa using this
  have htr : (groups.map fun g => XenaChassis.clear_stats g.2).flatten =
      ((groups.map Prod.snd).flatten).map fun p => Ev.clearStats p.name := by
    rw [List.map_flatten, List.map_map]
    rfl
  have hperm : ((groups.map fun g => XenaChassis.clear_stats g.2).flatten).Perm
      ((s._get_operation_ports P).map fun p => Ev.clearStats p.name) := by
    rw [htr]
    exact hperm0.map _
  refine ⟨_, hw, hperm, ?_, ?_⟩
  · intro ev hev
    have := hperm.mem_iff.mp hev
    obtain ⟨p, hp, rfl⟩ := List.mem_map.mp this
    exact ⟨p, hp, rfl⟩
  · rintro rfl n hn
    have hinj : Function.Injective Ev.clearStats := fun a b h => by injection h
    rw [hperm.count_eq]
    have hx : ((s._get_operation_ports []).map fun p => Ev.clearStats p.name) =
        (s.portsDict.map Prod.fst).map Ev.clearStats := by
      rw [show s._get_operation_ports [] = s.portsDict.map Prod.snd from rfl,
        ← portsDict_values_names]
      simp [List.map_map, Function.comp]
    rw [hx, List.count_map_of_injective _ _ hinj]
    exact List.count_eq_one_of_mem (portsDict_keys_nodup s) hn

/-! ### Counterexample for the original claim C1 and concrete witnesses -/

/-- Claim C1 as stated is false on the code: with blocking=false, start_traffic on a
session holding one reserved port does poll the port's p_traffic traffic-state
attribute (the confirmation poll for the commanded value on with timeout 40), so it
does not return without polling any port's traffic-state attribute. -/
theorem start_traffic_counterexample :
    Ev.poll "1.1.1.1/0/0" "p_traffic" 40 ["on"] ∈
      (XenaSession.start_traffic
        { owner := "own",
          chassis := [{ ip := "1.1.1.1", children := [ChassisChild.port "0/0"] }] }
        (fun _ _ => "on") false []).1 := by decide

/-- Witness instantiating start_traffic_spec on a one-chassis one-port session. -/
theorem start_traffic_spec_witness :
    ∃ trW,
      (XenaSession.start_traffic
        { owner := "own",
          chassis := [{ ip := "1.1.1.1", children := [ChassisChild.port "0/0"] }] }
        (fun _ t => if t = 0 then "on" else "off") true []).1 =
      (XenaSession.start_traffic
        { owner := "own",
          chassis := [{ ip := "1.1.1.1", children := [ChassisChild.port "0/0"] }] }
        (fun _ t => if t = 0 then "on" else "off") false []).1 ++ trW := by
  obtain ⟨_, h2, _, _⟩ := start_traffic_spec
    { owner := "own",
      chassis := [{ ip := "1.1.1.1", children := [ChassisChild.port "0/0"] }] }
    (fun _ t => if t = 0 then "on" else "off") [] (by decide)
  obtain ⟨trW, he, _⟩ := h2 (by decide)
  exact ⟨trW, he⟩

/-- Witness instantiating release_ports_spec on a two-chassis session. -/
theorem release_ports_spec_witness :
    ∃ tr, (XenaSession.release_ports
      { owner := "own",
        chassis := [{ ip := "1.1.1.1", children := [ChassisChild.port "0/0"] },
                    { ip := "2.2.2.2", children := [ChassisChild.port "3/5"] }] }) =
      Except.ok tr := by
  obtain ⟨tr, h1, _, _, _⟩ := release_ports_spec
    { owner := "own",
      chassis := [{ ip := "1.1.1.1", children := [ChassisChild.port "0/0"] },
                  { ip := "2.2.2.2", children := [ChassisChild.port "3/5"] }] }
    (by decide) (by decide) (by decide)
  exact ⟨tr, h1⟩

/-- Witness instantiating add_chassis_idempotent: two adds of the same address on
an empty session leave exactly one chassis with that address. -/
theorem add_chassis_idempotent_witness :
    ((({ owner := "own", chassis := [] } : XenaSession).add_chassis "1.1.1.1"
        "pw").1.add_chassis "1.1.1.1" "pw2").1.ips.count "1.1.1.1" = 1 :=
  (add_chassis_idempotent { owner := "own", chassis := [] } "1.1.1.1" "pw" "pw2").2.2
    (by decide)

/-- Witness instantiating traffic_command_shape on a one-port list. -/
theorem traffic_command_shape_witness :
    (XenaChassis._traffic_command { ip := "1.1.1.1", children := [] }
        (fun _ _ => "on") "on" [{ chassis := "1.1.1.1", ref := "0/0" }]).1 =
      [Ev.cmd "1.1.1.1" "c_traffic" ["on", "0 0"],
       Ev.poll "1.1.1.1/0/0" "p_traffic" 40 ["on"]] := by
  obtain ⟨⟨k, hk, htr, hok⟩, _⟩ := traffic_command_shape
    { ip := "1.1.1.1", children := [] } (fun _ _ => "on") "on"
    [{ chassis := "1.1.1.1", ref := "0/0" }] (by decide)
  have hk1 : k = 1 := hok (by decide)
  subst hk1
  rw [htr]
  decide

/-- Witness instantiating chassis_reserve_ports_spec on a conflict-free oracle. -/
theorem chassis_reserve_ports_spec_witness :
    (XenaChassis.reserve_ports { ip := "1.1.1.1", children := [] }
        (fun _ => false) ["0/0"] false).2.1 =
      [Ev.reserve "1.1.1.1/0/0" false, Ev.reset "1.1.1.1/0/0"] := by
  rw [chassis_reserve_ports_spec { ip := "1.1.1.1", children := [] }
    (fun _ => false) false ["0/0"] (by decide)]
  decide

/-- Witness instantiating clear_stats_spec with no explicit ports. -/
theorem clear_stats_spec_witness :
    ∃ tr, (XenaSession.clear_stats
      { owner := "own",
        chassis := [{ ip := "1.1.1.1", children := [ChassisChild.port "0/0"] }] } []) =
      Except.ok tr := by
  obtain ⟨tr, h1, _, _, _⟩ := clear_stats_spec
    { owner := "own",
      chassis := [{ ip := "1.1.1.1", children := [ChassisChild.port "0/0"] }] } []
    (by decide) (by decide)
  exact ⟨tr, h1⟩

/-- Witness instantiating chassis_inventory_spec on a two-slot count vector with
one zero entry. -/
theorem chassis_inventory_spec_witness :
    ∃ ms : List XenaModule,
      XenaChassis.inventory { ip := "1.1.1.1", children := [] } "2 0"
        (fun _ => { m_cfptype := "NOTCFP", m_portcount := "2", m_cfpconfig := "" }) =
      Except.ok { ip := "1.1.1.1", children := [] ++ ms.map ChassisChild.module } := by
  obtain ⟨ms, h1, _, _⟩ := chassis_inventory_spec
    { ip := "1.1.1.1", children := [] } "2 0"
    (fun _ => { m_cfptype := "NOTCFP", m_portcount := "2", m_cfpconfig := "" })
    (by
      intro e he
      rcases List.mem_cons.mp he with rfl | he2
      · exact ⟨2, by decide⟩
      · rcases List.mem_cons.mp he2 with rfl | he3
        · exact ⟨0, by decide⟩
        · cases he3)
    (by
      intro e he
      rcases List.mem_cons.mp he with rfl | he2
      · exact ⟨XenaModule.mk 0 ["0/0", "0/1"], by decide⟩
      · rcases List.mem_cons.mp he2 with rfl | he3
        · exact ⟨XenaModule.mk 1 ["1/0", "1/1"], by decide⟩
        · cases he3)
  exact ⟨ms, h1⟩

/-- Witness instantiating module_inventory_spec on the NOTCFP branch. -/
theorem module_inventory_spec_witness :
    XenaModule.inventory 2
        { m_cfptype := "NOTCFP", m_portcount := "3", m_cfpconfig := "" } =
      Except.ok { ref := 2, portRefs := ["2/0", "2/1", "2/2"] } := by
  rw [(module_inventory_spec 2
    { m_cfptype := "NOTCFP", m_portcount := "3", m_cfpconfig := "" }).1 3
    (by decide) (by decide)]
  decide

/-- Witness instantiating session_reserve_keyerror: the second location names an
unknown chassis, the call fails with KeyError and the first reservation stands. -/
theorem session_reserve_keyerror_witness :
    (XenaSession.reserve_ports
      { owner := "own", chassis := [{ ip := "1.1.1.1", children := [] }] }
      (fun _ => false) (["1.1.1.1/0/0"] ++ "9.9.9.9/0/0" :: []) false).2.2 =
      Except.error XenaError.keyError := by
  obtain ⟨_, _, h3, _⟩ := session_reserve_keyerror
    { owner := "own", chassis := [{ ip := "1.1.1.1", children := [] }] }
    (fun _ => false) false ["1.1.1.1/0/0"] [] "9.9.9.9/0/0" "9.9.9.9" "0" "0"
    (by decide) (by decide)
    ⟨[("1.1.1.1/0/0", { chassis := "1.1.1.1", ref := "0/0" })], by decide⟩
  exact h3

/-- Witness instantiating reserve_duplicates_node on a chassis already holding a
node for the requested location. -/
theorem reserve_duplicates_node_witness :
    2 ≤ ((XenaChassis.reserve_ports
      { ip := "1.1.1.1", children := [ChassisChild.port "0/0"] }
      (fun _ => false) ["0/0"] false).1.portRefList.count "0/0") :=
  (reserve_duplicates_node
    { ip := "1.1.1.1", children := [ChassisChild.port "0/0"] }
    (fun _ => false) false "0/0" (by decide)).2.1

end PyXena
